import Mathlib

/-!
# Route reconciliation of the Alibaba cloud controller

A shallow embedding of `pkg/controller/route/manager.go`:

* `containsRoute`      (manager.go 202-224), the CIDR containment test;
* `conflictWithNodes`  (manager.go 153-175), the per-node conflict test;
* `getRouteTables`     (manager.go 56-77), the route table resolver;
* `createRouteForInstance` (manager.go 27-49), route creation under backoff;
* `deleteRouteForInstance` (manager.go 51-54) and `findRoute` (manager.go 177-200);
* `syncTableRoutes`    (manager.go 79-151), one pass over a route table.

`containsRoute` is written against Go's `net` package.  The functions of that
package which it reaches (`net.ParseCIDR`, `(*IPNet).String`,
`(*IPNet).Contains` and what those call) are embedded first, following the Go
standard library (the `netip` based `ParseCIDR` of Go 1.19 and later), for
IPv4 and for IPv6 texts.  `createRouteForInstance` is written against
`wait.ExponentialBackoff` of k8s.io/apimachinery, embedded as its loop over
`Backoff.Steps`; the sleeps between the attempts are not part of the model.

Conventions of the embedding

* a Go `byte` is a `Nat` below 256, a byte slice is a `List Nat`; a `nil`
  slice is the empty list where Go only looks at its length, and `none` where
  Go tests it against `nil`;
* a Go `string` is a Lean `String`; parsers work on its list of characters
  (every character the parsers accept is ASCII, so scanning characters and
  scanning bytes agree);
* a Go result pair `(value, error)` is an `Except` whose error carries the
  message, where the caller drops the value on an error; the result of
  `CreateRoute`, whose route `createRouteForInstance` keeps also on an error, is
  the pair itself;
* provider calls are state passing functions, and every call made is
  appended to a log of calls.
-/

namespace RouteManager

/-! ## Go `net`: addresses, masks, networks -/

/-- Go `net.IPNet`: a network number and a mask, both byte slices. -/
structure IPNet where
  /-- network number -/
  IP : List Nat
  /-- network mask -/
  Mask : List Nat
deriving DecidableEq, Repr

/-- Go `net.IPv4len`. -/
def IPv4len : Nat := 4

/-- Go `net.IPv6len`. -/
def IPv6len : Nat := 16

/-- Go `^b` on a byte: exclusive or with the byte of all ones. -/
def bnot (b : Nat) : Nat := b ^^^ 0xff

/-- Go `net.isZeros`. -/
def isZeros (p : List Nat) : Bool := p.all (fun b => b == 0)

/-- Go `net.allFF`. -/
def allFF (p : List Nat) : Bool := p.all (fun b => b == 0xff)

/-- Go `IP.To4`: the 4-byte form of an IPv4 address, `none` for Go's `nil`. -/
def To4 (ip : List Nat) : Option (List Nat) :=
  if ip.length = IPv4len then some ip
  else if ip.length = IPv6len ∧ isZeros (ip.take 10) = true ∧
      ip.getD 10 0 = 0xff ∧ ip.getD 11 0 = 0xff then some (ip.drop 12)
  else none

/-- Go `net.networkNumberAndMask`; `none` stands for the result `nil, nil`. -/
def networkNumberAndMask (n : IPNet) : Option (List Nat × List Nat) :=
  let ip? : Option (List Nat) :=
    match To4 n.IP with
    | some ip => some ip
    | none => if n.IP.length ≠ IPv6len then none else some n.IP
  match ip? with
  | none => none
  | some ip =>
    if n.Mask.length = IPv4len then
      if ip.length ≠ IPv4len then none else some (ip, n.Mask)
    else if n.Mask.length = IPv6len then
      if ip.length = IPv4len then some (ip, n.Mask.drop 12) else some (ip, n.Mask)
    else none

/-- The comparison loop of `(*IPNet).Contains`:
`for i := 0; i < l; i++ { if nn[i]&m[i] != ip[i]&m[i] { return false } }`. -/
def containsLoop : List Nat → List Nat → List Nat → Bool
  | n :: nn, m :: ms, x :: ip =>
    if n &&& m ≠ x &&& m then false else containsLoop nn ms ip
  | _, _, _ => true

/-- Go `(*IPNet).Contains`. -/
def IPNet.Contains (n : IPNet) (ip : List Nat) : Bool :=
  let nnm := (networkNumberAndMask n).getD ([], [])
  let ip := (To4 ip).getD ip
  if ip.length ≠ nnm.1.length then false
  else containsLoop nnm.1 nnm.2 ip

/-- The loop of `net.CIDRMask` over the `l` bytes left, `n` ones left. -/
def cidrMaskLoop : Nat → Nat → List Nat
  | 0, _ => []
  | l + 1, n =>
    if n ≥ 8 then 0xff :: cidrMaskLoop l (n - 8)
    else bnot (0xff >>> n) :: cidrMaskLoop l 0

/-- Go `net.CIDRMask(ones, bits)`; the empty list stands for `nil`. -/
def CIDRMask (ones bits : Nat) : List Nat :=
  if bits ≠ 8 * IPv4len ∧ bits ≠ 8 * IPv6len then []
  else if ones > bits then []
  else cidrMaskLoop (bits / 8) ones

/-- The prefix of the IPv4-mapped IPv6 addresses, Go `v4InV6Prefix`. -/
def v4InV6Lead : List Nat := [0, 0, 0, 0, 0, 0, 0, 0, 0, 0, 0xff, 0xff]

/-- Go `IP.Mask`; the empty list stands for `nil`. -/
def ipMask (ip mask : List Nat) : List Nat :=
  let mask := if mask.length = IPv6len ∧ ip.length = IPv4len ∧ allFF (mask.take 12) = true
    then mask.drop 12 else mask
  let ip := if mask.length = IPv4len ∧ ip.length = IPv6len ∧ ip.take 12 = v4InV6Lead
    then ip.drop 12 else ip
  if ip.length ≠ mask.length then []
  else List.zipWith (fun a m => a &&& m) ip mask

/-- The inner loop of `net.simpleMaskLength`:
`for v&0x80 != 0 { n++; v <<= 1 }` on a byte (at most eight rounds). -/
def countOnes : Nat → Nat → Nat → Nat × Nat
  | 0, v, n => (v, n)
  | fuel + 1, v, n =>
    if v &&& 0x80 ≠ 0 then countOnes fuel ((v <<< 1) % 256) (n + 1) else (v, n)

/-- Go `net.simpleMaskLength`, with the count so far; `none` stands for -1. -/
def simpleMaskLengthFrom (n : Nat) : List Nat → Option Nat
  | [] => some n
  | v :: rest =>
    if v = 0xff then simpleMaskLengthFrom (n + 8) rest
    else
      let vn := countOnes 8 v n
      if vn.1 ≠ 0 then none
      else if rest.any (fun b => b != 0) then none
      else some vn.2

/-- Go `net.simpleMaskLength`. -/
def simpleMaskLength (mask : List Nat) : Option Nat := simpleMaskLengthFrom 0 mask

/-! ## Go `net`: formatting -/

/-- The digit table `"0123456789abcdef"`. -/
def digitChar (d : Nat) : Char :=
  match d with
  | 0 => '0' | 1 => '1' | 2 => '2' | 3 => '3' | 4 => '4'
  | 5 => '5' | 6 => '6' | 7 => '7' | 8 => '8' | 9 => '9'
  | 10 => 'a' | 11 => 'b' | 12 => 'c' | 13 => 'd' | 14 => 'e'
  | _ => 'f'

/-- The loop of Go `uitoa`: digits are produced from the right. -/
def uitoaLoop : Nat → Nat → List Char → List Char
  | 0, _, acc => acc
  | fuel + 1, val, acc =>
    if val ≥ 10 then uitoaLoop fuel (val / 10) (digitChar (val % 10) :: acc)
    else digitChar val :: acc

/-- Go `uitoa`: decimal text of an unsigned integer (at most 20 digits). -/
def uitoa (val : Nat) : List Char :=
  if val = 0 then ['0'] else uitoaLoop 20 val []

/-- Go `netip.appendDecimal`: decimal text of a byte. -/
def appendDecimal (x : Nat) : List Char :=
  (if x ≥ 100 then [digitChar (x / 100)] else []) ++
  (if x ≥ 10 then [digitChar (x / 10 % 10)] else []) ++
  [digitChar (x % 10)]

/-- Go `netip.appendHex`: hexadecimal text of a 16 bit group, no leading zeros. -/
def appendHex (x : Nat) : List Char :=
  (if x ≥ 0x1000 then [digitChar (x >>> 12)] else []) ++
  (if x ≥ 0x100 then [digitChar (x >>> 8 &&& 0xf)] else []) ++
  (if x ≥ 0x10 then [digitChar (x >>> 4 &&& 0xf)] else []) ++
  [digitChar (x &&& 0xf)]

/-- Go `net.hexString`: two hexadecimal digits for each byte. -/
def hexString (b : List Nat) : List Char :=
  b.flatMap (fun v => [digitChar (v >>> 4), digitChar (v &&& 0xf)])

/-- Go `Addr.string4`: dotted decimal text of four bytes. -/
def string4 (ip : List Nat) : List Char :=
  appendDecimal (ip.getD 0 0) ++ ['.'] ++ appendDecimal (ip.getD 1 0) ++ ['.'] ++
  appendDecimal (ip.getD 2 0) ++ ['.'] ++ appendDecimal (ip.getD 3 0)

/-- The 16 bit group `i` of a 16 byte address, Go `Addr.v6u16`. -/
def v6u16 (ip : List Nat) (i : Nat) : Nat :=
  ip.getD (2 * i) 0 * 256 + ip.getD (2 * i + 1) 0

/-- The inner loop of `appendTo6`: `for j < 8 && ip.v6u16(j) == 0 { j++ }`. -/
def zeroRunEnd (ip : List Nat) : Nat → Nat → Nat
  | 0, j => j
  | fuel + 1, j => if j < 8 ∧ v6u16 ip j = 0 then zeroRunEnd ip fuel (j + 1) else j

/-- The first loop of `appendTo6`: the longest run of at least two zero
groups, the leftmost among equals; `(255, 255)` when there is none.  The
indices are `uint8`, so `zeroEnd - zeroStart` is taken modulo 256. -/
def zeroRun (ip : List Nat) : List Nat → Nat × Nat → Nat × Nat
  | [], z => z
  | i :: is, z =>
    let j := zeroRunEnd ip 8 i
    let l := j - i
    if l ≥ 2 ∧ l > (z.2 + 256 - z.1) % 256 then zeroRun ip is (i, j) else zeroRun ip is z

/-- The second loop of `appendTo6`, from group `i` on. -/
def appendTo6Loop (ip : List Nat) (z : Nat × Nat) : Nat → Nat → List Char
  | 0, _ => []
  | fuel + 1, i =>
    if i ≥ 8 then []
    else if i = z.1 then
      if z.2 ≥ 8 then [':', ':']
      else [':', ':'] ++ appendHex (v6u16 ip z.2) ++ appendTo6Loop ip z fuel (z.2 + 1)
    else
      (if i > 0 then [':'] else []) ++ appendHex (v6u16 ip i) ++ appendTo6Loop ip z fuel (i + 1)

/-- Go `Addr.string6` (no zone): IPv6 text with the longest zero run elided. -/
def string6 (ip : List Nat) : List Char :=
  appendTo6Loop ip (zeroRun ip (List.range 8) (255, 255)) 8 0

/-- Go `IP.String`. -/
def ipString (ip : List Nat) : List Char :=
  if ip.length = 0 then "<nil>".data
  else if ip.length ≠ IPv4len ∧ ip.length ≠ IPv6len then '?' :: hexString ip
  else
    match To4 ip with
    | some p4 => string4 p4
    | none => string6 ip

/-- Go `IPMask.String`. -/
def maskString (m : List Nat) : List Char :=
  if m.length = 0 then "<nil>".data else hexString m

/-- Go `(*IPNet).String` for a non-nil receiver. -/
def IPNet.String (n : IPNet) : String :=
  match networkNumberAndMask n with
  | none => "<nil>"
  | some (nn, m) =>
    if nn.length = 0 ∨ m.length = 0 then "<nil>"
    else
      match simpleMaskLength m with
      | none => String.mk (ipString nn ++ ['/'] ++ maskString m)
      | some l => String.mk (ipString nn ++ ['/'] ++ uitoa l)

/-! ## Go `net`: parsing -/

/-- Go `netip.Addr` as far as `ParseCIDR` looks at it: an IPv4 address of four
bytes, or an IPv6 address of sixteen bytes with its zone. -/
inductive Addr where
  | v4 (b : List Nat)
  | v6 (b : List Nat) (zone : List Char)
deriving DecidableEq, Repr

/-- Go `Addr.BitLen`. -/
def Addr.BitLen : Addr → Nat
  | .v4 _ => 32
  | .v6 _ _ => 128

/-- Go `Addr.Zone`. -/
def Addr.Zone : Addr → List Char
  | .v4 _ => []
  | .v6 _ z => z

/-- Go `Addr.As16`: an IPv4 address becomes its IPv4-mapped IPv6 form. -/
def Addr.As16 : Addr → List Nat
  | .v4 b => v4InV6Lead ++ b
  | .v6 b _ => b

/-- Tests `'0' <= c && c <= '9'`. -/
def isDigit (c : Char) : Bool := decide ('0'.toNat ≤ c.toNat ∧ c.toNat ≤ '9'.toNat)

/-- The loop of Go `netip.parseIPv4`.  `prev` is the byte before the current
one (`none` at `i == 0`), `fields` the octets stored so far (`pos` of them). -/
def parseIPv4Loop : List Char → Option Char → List Nat → Nat → Nat → Nat → Option (List Nat)
  | [], _, fields, val, pos, _ =>
    if pos < 3 then none else some (fields ++ [val])
  | c :: rest, prev, fields, val, pos, digLen =>
    if isDigit c then
      if digLen = 1 ∧ val = 0 then none
      else
        let val1 := val * 10 + (c.toNat - '0'.toNat)
        if val1 > 255 then none
        else parseIPv4Loop rest (some c) fields val1 pos (digLen + 1)
    else if c = '.' then
      if prev = none ∨ rest = [] ∨ prev = some '.' then none
      else if pos = 3 then none
      else parseIPv4Loop rest (some c) (fields ++ [val]) 0 (pos + 1) 0
    else none

/-- Go `netip.parseIPv4`: four decimal octets, no leading zeros. -/
def parseIPv4 (s : List Char) : Option (List Nat) := parseIPv4Loop s none [] 0 0 0

/-- The value of a hexadecimal digit, `none` for any other character. -/
def hexVal (c : Char) : Option Nat :=
  if isDigit c then some (c.toNat - '0'.toNat)
  else if 'a'.toNat ≤ c.toNat ∧ c.toNat ≤ 'f'.toNat then some (c.toNat - 'a'.toNat + 10)
  else if 'A'.toNat ≤ c.toNat ∧ c.toNat ≤ 'F'.toNat then some (c.toNat - 'A'.toNat + 10)
  else none

/-- The hex number loop of Go `netip.parseIPv6`: `none` on an error, else the
number of digits read, their value and the text left. -/
def hexGroup : List Char → Nat → Nat → Option (Nat × Nat × List Char)
  | [], off, acc => some (off, acc, [])
  | c :: cs, off, acc =>
    match hexVal c with
    | none => some (off, acc, c :: cs)
    | some d =>
      let acc1 := acc * 16 + d
      if off > 3 then none
      else if acc1 > 0xffff then none
      else hexGroup cs (off + 1) acc1

/-- The main loop `for i < 16` of Go `netip.parseIPv6`; `ip` holds the bytes
written so far (`i` of them).  `none` on an error, else the text left, the
bytes and the position of the ellipsis. -/
def parseIPv6Loop : Nat → List Char → List Nat → Option Nat →
    Option (List Char × List Nat × Option Nat)
  | 0, s, ip, ellipsis => some (s, ip, ellipsis)
  | fuel + 1, s, ip, ellipsis =>
    if ip.length ≥ 16 then some (s, ip, ellipsis)
    else
      match hexGroup s 0 0 with
      | none => none
      | some (off, acc, rest) =>
        if off = 0 then none
        else if rest.head? = some '.' then
          if ellipsis = none ∧ ip.length ≠ 12 then none
          else if ip.length + 4 > 16 then none
          else
            match parseIPv4 s with
            | none => none
            | some ip4 => some ([], ip ++ ip4, ellipsis)
        else
          let ip1 := ip ++ [acc >>> 8, acc % 256]
          match rest with
          | [] => some ([], ip1, ellipsis)
          | c :: s1 =>
            if c ≠ ':' then none
            else
              match s1 with
              | [] => none
              | c1 :: s2 =>
                if c1 = ':' then
                  if ellipsis ≠ none then none
                  else if s2 = [] then some ([], ip1, some ip1.length)
                  else parseIPv6Loop fuel s2 ip1 (some ip1.length)
                else parseIPv6Loop fuel s1 ip1 ellipsis

/-- The start of Go `netip.parseIPv6`: the zone is split off at the first `%`;
an empty zone after a `%` is an error (`none`). -/
def splitZone (input : List Char) : Option (List Char × List Char) :=
  if input.contains '%' then
    let zone := (input.dropWhile (fun c => c != '%')).drop 1
    if zone = [] then none else some (input.takeWhile (fun c => c != '%'), zone)
  else some (input, [])

/-- The end of Go `netip.parseIPv6`, after the main loop: the whole text must
be used, and a short address is filled with zeros at the ellipsis. -/
def expandEllipsis (r : Option (List Char × List Nat × Option Nat)) : Option (List Nat) :=
  match r with
  | none => none
  | some (rest, ip, ellipsis) =>
    if rest ≠ [] then none
    else if ip.length < 16 then
      match ellipsis with
      | none => none
      | some e => some (ip.take e ++ List.replicate (16 - ip.length) 0 ++ ip.drop e)
    else if ellipsis ≠ none then none
    else some ip

/-- Go `netip.parseIPv6`: the sixteen bytes and the zone. -/
def parseIPv6 (input : List Char) : Option (List Nat × List Char) :=
  match splitZone input with
  | none => none
  | some (s, zone) =>
    if s.take 2 = [':', ':'] then
      if s.drop 2 = [] then some (List.replicate 16 0, zone)
      else (expandEllipsis (parseIPv6Loop 8 (s.drop 2) [] (some 0))).map (fun ip => (ip, zone))
    else (expandEllipsis (parseIPv6Loop 8 s [] none)).map (fun ip => (ip, zone))

/-- The dispatch loop of Go `netip.ParseAddr`: the first of `.`, `:` and `%`
decides how the whole text is read. -/
def parseAddrScan (whole : List Char) : List Char → Option Addr
  | [] => none
  | c :: cs =>
    if c = '.' then (parseIPv4 whole).map Addr.v4
    else if c = ':' then (parseIPv6 whole).map (fun r => Addr.v6 r.1 r.2)
    else if c = '%' then none
    else parseAddrScan whole cs

/-- Go `netip.ParseAddr`. -/
def ParseAddr (s : List Char) : Option Addr := parseAddrScan s s

/-- Go `net.big`. -/
def big : Nat := 0xFFFFFF

/-- The loop of Go `net.dtoi`, with the value `n` and the index `i` so far. -/
def dtoiLoop : List Char → Nat → Nat → Nat × Nat × Bool
  | [], n, i => if i = 0 then (0, 0, false) else (n, i, true)
  | c :: cs, n, i =>
    if isDigit c then
      let n1 := n * 10 + (c.toNat - '0'.toNat)
      if n1 ≥ big then (big, i, false) else dtoiLoop cs n1 (i + 1)
    else if i = 0 then (0, 0, false) else (n, i, true)

/-- Go `net.dtoi`: decimal to integer, with the number of bytes read. -/
def dtoi (s : List Char) : Nat × Nat × Bool := dtoiLoop s 0 0

/-- Go `net.ParseCIDR` on a list of characters; only the network (the second
result of the Go function) is kept, `none` stands for the `ParseError`. -/
def parseCIDRChars (s : List Char) : Option IPNet :=
  if s.contains '/' then
    let addr := s.takeWhile (fun c => c != '/')
    let mask := (s.dropWhile (fun c => c != '/')).drop 1
    match ParseAddr addr with
    | none => none
    | some ipAddr =>
      if ipAddr.Zone ≠ [] then none
      else
        let r := dtoi mask
        if r.2.2 = false ∨ r.2.1 ≠ mask.length ∨ r.1 > ipAddr.BitLen then none
        else
          let m := CIDRMask r.1 ipAddr.BitLen
          some { IP := ipMask ipAddr.As16 m, Mask := m }
  else none

/-- Go `net.ParseCIDR`. -/
def ParseCIDR (s : String) : Option IPNet := parseCIDRChars s.data

/-! ## manager.go: containsRoute -/

/-- The last address of a parsed network, manager.go 216-219:
`lastIP[i] = cidr.IP[i] | ^cidr.Mask[i]` for every index of `cidr.IP`.  The two
slices of a parsed network have the same length (`ParseCIDR_shape` below), so
`zipWith` visits every index. -/
def lastIP (cidr : IPNet) : List Nat :=
  List.zipWith (fun a m => a ||| bnot m) cidr.IP cidr.Mask

/-- The error of manager.go 209; Go's `ParseError` prints as
`invalid CIDR address: ` followed by the text. -/
def unparsable (insideRoute : String) : String :=
  "ignoring route " ++ insideRoute ++ ", unparsable CIDR: invalid CIDR address: " ++ insideRoute

/-- The function `containsRoute` of manager.go 202-224.  `outside = none` is the nil
pointer; the result is `(containsEqual, realContains)` or the error. -/
def containsRoute (outside : Option IPNet) (insideRoute : String) :
    Except String (Bool × Bool) :=
  match outside with
  | none => .ok (true, true)
  | some outside =>
    match ParseCIDR insideRoute with
    | none => .error (unparsable insideRoute)
    | some cidr =>
      if outside.String = insideRoute then .ok (true, false)
      else if !outside.Contains cidr.IP || !outside.Contains (lastIP cidr) then .ok (false, false)
      else .ok (true, true)

/-! ## manager.go: conflictWithNodes -/

/-- The function `conflictWithNodes` of manager.go 153-175, over the items of the node
list.  `getIPv4RouteForNode` (a helper of the route package that manager.go
calls) is a parameter: for a node it gives the error, or the pod network
(`none` for a nil pointer) and its text. -/
def conflictWithNodes {Node : Type}
    (getIPv4RouteForNode : Node → Except String (Option IPNet × String))
    (route : String) : List Node → Bool
  | [] => false
  | node :: rest =>
    match getIPv4RouteForNode node with
    | .error _ => conflictWithNodes getIPv4RouteForNode route rest
    | .ok (none, _) => conflictWithNodes getIPv4RouteForNode route rest
    | .ok (some ipv4Cidr, _) =>
      match containsRoute (some ipv4Cidr) route with
      | .error _ => conflictWithNodes getIPv4RouteForNode route rest
      | .ok (_, contains) =>
        if contains then true
        else conflictWithNodes getIPv4RouteForNode route rest

/-! ## The provider and the log of its calls -/

/-- The fields of `model.Route` that manager.go reads. -/
structure Route where
  /-- name of the route entry -/
  Name : String
  /-- destination network, as text -/
  DestinationCIDR : String
  /-- provider id of the next hop instance -/
  ProviderId : String
deriving DecidableEq, Repr

/-- One call of a provider method, with its arguments (the context apart). -/
inductive Call where
  | VpcID
  | ListRouteTables (vpcId : String)
  | ListRoute (table : String)
  | CreateRoute (table providerID cidr : String)
  | DeleteRoute (table providerID cidr : String)
  | FindRoute (table providerID cidr : String)
deriving DecidableEq, Repr

/-- The provider methods that manager.go calls (`prvd.Provider`, `prvd.IVPC`),
over a provider state `σ`: each call gives its result and the next state.  A
nil `*model.Route` is `none`. -/
structure Provider (σ : Type) where
  /-- the method `VpcID()` -/
  VpcID : σ → Except String String × σ
  /-- the method `ListRouteTables(ctx, vpcId)` -/
  ListRouteTables : σ → String → Except String (List String) × σ
  /-- the method `ListRoute(ctx, table)` -/
  ListRoute : σ → String → Except String (List Route) × σ
  /-- the method `CreateRoute(ctx, table, providerID, cidr)`: the route and the
  error it returns, each of which may be nil (`none`) -/
  CreateRoute : σ → String → String → String → (Option Route × Option String) × σ
  /-- the method `DeleteRoute(ctx, table, providerID, cidr)`; `none` is a nil error -/
  DeleteRoute : σ → String → String → String → Option String × σ
  /-- the method `FindRoute(ctx, table, providerID, cidr)` -/
  FindRoute : σ → String → String → String → Except String (Option Route) × σ

/-- The provider state together with the calls made so far, oldest first. -/
structure World (σ : Type) where
  /-- provider state -/
  state : σ
  /-- calls made so far -/
  calls : List Call

/-- A logged call of `VpcID`. -/
def callVpcID {σ : Type} (p : Provider σ) (w : World σ) : Except String String × World σ :=
  ((p.VpcID w.state).1, ⟨(p.VpcID w.state).2, w.calls ++ [Call.VpcID]⟩)

/-- A logged call of `ListRouteTables`. -/
def callListRouteTables {σ : Type} (p : Provider σ) (vpcId : String) (w : World σ) :
    Except String (List String) × World σ :=
  ((p.ListRouteTables w.state vpcId).1,
    ⟨(p.ListRouteTables w.state vpcId).2, w.calls ++ [Call.ListRouteTables vpcId]⟩)

/-- A logged call of `CreateRoute`. -/
def callCreateRoute {σ : Type} (p : Provider σ) (table providerID cidr : String) (w : World σ) :
    (Option Route × Option String) × World σ :=
  ((p.CreateRoute w.state table providerID cidr).1,
    ⟨(p.CreateRoute w.state table providerID cidr).2,
      w.calls ++ [Call.CreateRoute table providerID cidr]⟩)

/-! ## Go `strings` -/

/-- Go `strings.Split` for a separator of one byte, on characters. -/
def splitChars (sep : Char) : List Char → List (List Char)
  | [] => [[]]
  | c :: cs =>
    if c = sep then [] :: splitChars sep cs
    else
      match splitChars sep cs with
      | [] => [[c]]
      | h :: t => (c :: h) :: t

/-- Go `strings.Split(s, sep)` for a separator of one byte. -/
def stringsSplit (s : String) (sep : Char) : List String :=
  (splitChars sep s.data).map String.mk

/-- Go `strings.Join` for a separator of one byte, on characters. -/
def joinChars (sep : Char) : List (List Char) → List Char
  | [] => []
  | [piece] => piece
  | piece :: next :: more => piece ++ sep :: joinChars sep (next :: more)

/-- Go `strings.Contains(s, substr)`: `substr` starts at some position of `s`. -/
def stringsContains (s substr : String) : Bool :=
  s.data.tails.any (fun t => substr.data.isPrefixOf t)

/-! ## manager.go: getRouteTables -/

/-- The function `getRouteTables` of manager.go 56-77.  `routeTableIDS` is
`ctrlCfg.CloudCFG.Global.RouteTableIDS` and `cfgVpcID` is
`ctrlCfg.CloudCFG.Global.VpcID` (only printed). -/
def getRouteTables {σ : Type} (p : Provider σ) (routeTableIDS cfgVpcID : String) (w : World σ) :
    Except String (List String) × World σ :=
  match callVpcID p w with
  | (.error err, w1) => (.error ("get vpc id from metadata error: " ++ err), w1)
  | (.ok vpcId, w1) =>
    if routeTableIDS ≠ "" then (.ok (stringsSplit routeTableIDS ','), w1)
    else
      match callListRouteTables p vpcId w1 with
      | (.error err, w2) =>
        (.error ("alicloud: can not found routetable by id[" ++ cfgVpcID ++ "], error: " ++ err), w2)
      | (.ok tables, w2) =>
        if tables.length > 1 then
          (.error ("alicloud: multiple route tables found by vpc id[" ++ cfgVpcID ++
            "], length(tables)=" ++ toString tables.length), w2)
        else if tables.length = 0 then
          (.error ("alicloud: no route tables found by vpc id[" ++ cfgVpcID ++ "]"), w2)
        else (.ok tables, w2)

/-! ## manager.go: createRouteForInstance -/

/-- The fields of `wait.Backoff` that manager.go sets; durations in seconds. -/
structure Backoff where
  /-- base duration -/
  Duration : Nat
  /-- number of attempts left -/
  Steps : Nat
  /-- growth of the duration -/
  Factor : Nat
  /-- jitter of the sleep -/
  Jitter : Nat
deriving DecidableEq, Repr

/-- The value `createBackoff` of manager.go 18-25. -/
def createBackoff : Backoff := { Duration := 4, Steps := 3, Factor := 2, Jitter := 1 }

/-- The message of `wait.ErrWaitTimeout`. -/
def ErrWaitTimeout : String := "timed out waiting for the condition"

/-- The loop of `wait.ExponentialBackoff` over `Backoff.Steps`:
`for backoff.Steps > 0 { if ok, err := condition(); err != nil || ok { return err };
if backoff.Steps == 1 { break }; time.Sleep(backoff.Step()) }; return ErrWaitTimeout`,
where `Step()` takes one from `Steps`.  The sleep is not part of the model. -/
def backoffLoop {τ : Type} (condition : τ → Except String Bool × τ) : Nat → τ → Option String × τ
  | 0, t => (some ErrWaitTimeout, t)
  | steps + 1, t =>
    match condition t with
    | (.error err, t1) => (some err, t1)
    | (.ok true, t1) => (none, t1)
    | (.ok false, t1) =>
      if steps + 1 = 1 then (some ErrWaitTimeout, t1)
      else backoffLoop condition steps t1

/-- The function `wait.ExponentialBackoff`; `none` is a nil error. -/
def ExponentialBackoff {τ : Type} (backoff : Backoff) (condition : τ → Except String Bool × τ)
    (t : τ) : Option String × τ :=
  backoffLoop condition backoff.Steps t

/-- The variables that the closure of `createRouteForInstance` writes, and the world. -/
structure CreateVars (σ : Type) where
  /-- the variable `route` -/
  route : Option Route
  /-- the variable `innerErr`; `none` is nil -/
  innerErr : Option String
  /-- provider state and log -/
  world : World σ

/-- The closure passed to `wait.ExponentialBackoff` at manager.go 32-43.  Line 33
assigns both results of the call to `route` and `innerErr`, also when the call
fails. -/
def createCondition {σ : Type} (p : Provider σ) (table providerID cidr : String)
    (v : CreateVars σ) : Except String Bool × CreateVars σ :=
  match callCreateRoute p table providerID cidr v.world with
  | ((route, some innerErr), w1) =>
    if stringsContains innerErr "not found" then
      (.ok true, { route := route, innerErr := some innerErr, world := w1 })
    else (.ok false, { route := route, innerErr := some innerErr, world := w1 })
  | ((route, none), w1) => (.ok true, { route := route, innerErr := none, world := w1 })

/-- Go `%v` of an error value. -/
def showErr : Option String → String
  | none => "<nil>"
  | some e => e

/-- The function `createRouteForInstance` of manager.go 27-49: line 46 returns nil
with the error, line 48 returns the variable `route` with no error. -/
def createRouteForInstance {σ : Type} (p : Provider σ) (table providerID cidr : String)
    (w : World σ) : Except String (Option Route) × World σ :=
  match ExponentialBackoff createBackoff (createCondition p table providerID cidr)
      { route := none, innerErr := none, world := w } with
  | (some _, v) =>
    (.error ("error create route for node " ++ providerID ++ ", err: " ++ showErr v.innerErr),
      v.world)
  | (none, v) => (.ok v.route, v.world)

/-! ## manager.go: deleteRouteForInstance, findRoute -/

/-- A logged call of `ListRoute`. -/
def callListRoute {σ : Type} (p : Provider σ) (table : String) (w : World σ) :
    Except String (List Route) × World σ :=
  ((p.ListRoute w.state table).1,
    ⟨(p.ListRoute w.state table).2, w.calls ++ [Call.ListRoute table]⟩)

/-- A logged call of `DeleteRoute`. -/
def callDeleteRoute {σ : Type} (p : Provider σ) (table providerID cidr : String) (w : World σ) :
    Option String × World σ :=
  ((p.DeleteRoute w.state table providerID cidr).1,
    ⟨(p.DeleteRoute w.state table providerID cidr).2,
      w.calls ++ [Call.DeleteRoute table providerID cidr]⟩)

/-- A logged call of `FindRoute`. -/
def callFindRoute {σ : Type} (p : Provider σ) (table providerID cidr : String) (w : World σ) :
    Except String (Option Route) × World σ :=
  ((p.FindRoute w.state table providerID cidr).1,
    ⟨(p.FindRoute w.state table providerID cidr).2,
      w.calls ++ [Call.FindRoute table providerID cidr]⟩)

/-- The function `deleteRouteForInstance` of manager.go 51-54; `none` is a nil error. -/
def deleteRouteForInstance {σ : Type} (p : Provider σ) (table providerID cidr : String)
    (w : World σ) : Option String × World σ :=
  callDeleteRoute p table providerID cidr w

/-- The loop of `findRoute` over the cached routes, manager.go 182-197. -/
def findRouteLoop (pvid cidr : String) : List Route → Option Route
  | [] => none
  | route :: rest =>
    if pvid ≠ "" ∧ cidr ≠ "" then
      if route.DestinationCIDR = cidr ∧ route.ProviderId = pvid then some route
      else findRouteLoop pvid cidr rest
    else if pvid ≠ "" then
      if route.ProviderId = pvid then some route
      else findRouteLoop pvid cidr rest
    else if cidr ≠ "" then
      if route.DestinationCIDR = cidr then some route
      else findRouteLoop pvid cidr rest
    else findRouteLoop pvid cidr rest

/-- The function `findRoute` of manager.go 177-200.  The cached routes are non-nil
pointers; a nil result is `none`. -/
def findRoute {σ : Type} (p : Provider σ) (table pvid cidr : String)
    (cachedRoutes : List Route) (w : World σ) : Except String (Option Route) × World σ :=
  if pvid = "" ∧ cidr = "" then (.error "empty query condition", w)
  else if cachedRoutes.length ≠ 0 then (.ok (findRouteLoop pvid cidr cachedRoutes), w)
  else callFindRoute p table pvid cidr w

/-! ## manager.go: syncTableRoutes -/

/-- The field of `v1.NodeCondition` that manager.go reads. -/
structure NodeCondition where
  /-- status of the condition, a `v1.ConditionStatus` -/
  Status : String
deriving DecidableEq, Repr

/-- The constant `v1.NodeReady`. -/
def NodeReady : String := "Ready"

/-- The constant `v1.NodeNetworkUnavailable`. -/
def NodeNetworkUnavailable : String := "NetworkUnavailable"

/-- The constant `v1.ConditionUnknown`. -/
def ConditionUnknown : String := "Unknown"

/-- The constant `v1.ConditionFalse`. -/
def ConditionFalse : String := "False"

/-- The receiver `r *ReconcileRoute` of `syncTableRoutes` and what the function
reaches through it and through the packages `helper` and `ctrlCfg`, none of which
is in manager.go; they are parameters of the embedding.  `σ` is the state outside
the controller, `Node` stands for `v1.Node`. -/
structure ReconcileRoute (σ Node : Type) where
  /-- the field `r.cloud` -/
  cloud : Provider σ
  /-- the field `r.configRoutes` -/
  configRoutes : Bool
  /-- the setting `ctrlCfg.ControllerCFG.ClusterCIDR` -/
  ClusterCIDR : String
  /-- the function `helper.HasExcludeLabel(&node)` -/
  HasExcludeLabel : Node → Bool
  /-- the function `helper.FindCondition(node.Status.Conditions, conditionType)` -/
  FindCondition : Node → String → NodeCondition × Bool
  /-- the field `node.Spec.ProviderID` -/
  ProviderID : Node → String
  /-- the function `getIPv4RouteForNode(&node)` -/
  getIPv4RouteForNode : Node → Except String (Option IPNet × String)
  /-- the method `r.addRouteForNode(ctx, table, ipv4RouteCidr, prvdId, &node, routes)` -/
  addRouteForNode : σ → String → String → String → Node → List Route → Option String × σ
  /-- the method `r.updateNetworkingCondition(ctx, &node, routeCreated)` -/
  updateNetworkingCondition : σ → Node → Bool → Option String × σ

/-- One step of a pass of `syncTableRoutes`, as the pass itself issues it: a
provider call, an invocation of `addRouteForNode`, a warning event recorded on a
node, or an invocation of `updateNetworkingCondition`. -/
inductive Step (Node : Type) where
  | provider (c : Call)
  | addRouteForNode (table ipv4RouteCidr prvdId : String) (node : Node)
  | recordEvent (node : Node) (message : String)
  | updateNetworkingCondition (node : Node)

/-- The state outside the controller together with the steps of the pass so far,
oldest first. -/
structure Engine (σ Node : Type) where
  /-- outside state -/
  state : σ
  /-- steps so far -/
  steps : List (Step Node)

/-- Runs a logged provider operation inside a pass: the calls it makes are
appended to the steps. -/
def liftWorld {σ Node α : Type} (f : World σ → α × World σ) (e : Engine σ Node) :
    α × Engine σ Node :=
  ((f ⟨e.state, []⟩).1,
    ⟨(f ⟨e.state, []⟩).2.state, e.steps ++ (f ⟨e.state, []⟩).2.calls.map Step.provider⟩)

/-- The cluster scope of manager.go 85-91: `none` (nil) for an empty setting, the
parsed network otherwise, or the error of manager.go 89. -/
def clusterScope (ClusterCIDR : String) : Except String (Option IPNet) :=
  if ClusterCIDR ≠ "" then
    match ParseCIDR ClusterCIDR with
    | none => .error ("error parse cluster cidr " ++ ClusterCIDR ++ ": invalid CIDR address: " ++
        ClusterCIDR)
    | some clusterCIDR => .ok (some clusterCIDR)
  else .ok none

/-- The first loop of `syncTableRoutes`, manager.go 93-110, over the listed routes. -/
def pruneRoutes {σ Node : Type} (r : ReconcileRoute σ Node) (table : String)
    (nodes : List Node) (clusterCIDR : Option IPNet) :
    List Route → Engine σ Node → Engine σ Node
  | [], e => e
  | route :: rest, e =>
    match containsRoute clusterCIDR route.DestinationCIDR with
    | .error _ => pruneRoutes r table nodes clusterCIDR rest e
    | .ok (contains, _) =>
      if !contains then pruneRoutes r table nodes clusterCIDR rest e
      else if conflictWithNodes r.getIPv4RouteForNode route.DestinationCIDR nodes then
        match liftWorld (deleteRouteForInstance r.cloud table route.ProviderId
            route.DestinationCIDR) e with
        | (some _, e1) => pruneRoutes r table nodes clusterCIDR rest e1
        | (none, e1) => pruneRoutes r table nodes clusterCIDR rest e1
      else pruneRoutes r table nodes clusterCIDR rest e

/-- The second loop of `syncTableRoutes`, manager.go 111-149, over the items of the
node list. -/
def createRoutes {σ Node : Type} (r : ReconcileRoute σ Node) (table : String)
    (routes : List Route) : List Node → Engine σ Node → Engine σ Node
  | [], e => e
  | node :: rest, e =>
    if !r.configRoutes || r.HasExcludeLabel node then createRoutes r table routes rest e
    else if (r.FindCondition node NodeReady).2 &&
        (r.FindCondition node NodeReady).1.Status == ConditionUnknown then
      createRoutes r table routes rest e
    else if r.ProviderID node = "" then createRoutes r table routes rest e
    else
      match r.getIPv4RouteForNode node with
      | .error _ => createRoutes r table routes rest e
      | .ok (_, ipv4RouteCidr) =>
        if ipv4RouteCidr = "" then createRoutes r table routes rest e
        else
          match r.addRouteForNode e.state table ipv4RouteCidr (r.ProviderID node) node routes with
          | (some err, s1) =>
            createRoutes r table routes rest
              ⟨s1, e.steps ++ [Step.addRouteForNode table ipv4RouteCidr (r.ProviderID node) node,
                Step.recordEvent node ("Create Route Failed for " ++ table ++ " reason: " ++ err)]⟩
          | (none, s1) =>
            if !(r.FindCondition node NodeNetworkUnavailable).2 ||
                (r.FindCondition node NodeNetworkUnavailable).1.Status != ConditionFalse then
              createRoutes r table routes rest
                ⟨(r.updateNetworkingCondition s1 node true).2,
                  e.steps ++ [Step.addRouteForNode table ipv4RouteCidr (r.ProviderID node) node,
                    Step.updateNetworkingCondition node]⟩
            else
              createRoutes r table routes rest
                ⟨s1, e.steps ++ [Step.addRouteForNode table ipv4RouteCidr (r.ProviderID node) node]⟩

/-- The function `syncTableRoutes` of manager.go 79-151; `none` is a nil error. -/
def syncTableRoutes {σ Node : Type} (r : ReconcileRoute σ Node) (table : String)
    (nodes : List Node) (e : Engine σ Node) : Option String × Engine σ Node :=
  match liftWorld (callListRoute r.cloud table) e with
  | (.error err, e1) => (some ("error listing routes: " ++ err), e1)
  | (.ok routes, e1) =>
    match clusterScope r.ClusterCIDR with
    | .error err => (some err, e1)
    | .ok clusterCIDR =>
      (none, createRoutes r table routes nodes (pruneRoutes r table nodes clusterCIDR routes e1))

/-! ## Provider scripts and sample values used to state the results -/

/-- The provider state after `n` calls of `CreateRoute` with the same arguments. -/
def stateAfterCreates {σ : Type} (p : Provider σ) (table providerID cidr : String) :
    Nat → σ → σ
  | 0, s => s
  | n + 1, s => stateAfterCreates p table providerID cidr n (p.CreateRoute s table providerID cidr).2

/-- The result of call number `n` (from 0) of `CreateRoute`, started in state `s`. -/
def nthCreate {σ : Type} (p : Provider σ) (table providerID cidr : String) (s : σ) (n : Nat) :
    Option Route × Option String :=
  (p.CreateRoute (stateAfterCreates p table providerID cidr n s) table providerID cidr).1

/-- Call number `n` of `CreateRoute` fails, and not with a `not found` message. -/
def failsPlainly {σ : Type} (p : Provider σ) (table providerID cidr : String) (s : σ) (n : Nat) :
    Prop :=
  ∃ e, (nthCreate p table providerID cidr s n).2 = some e ∧
    stringsContains e "not found" = false

/-- A provider stub that counts its calls; `CreateRoute` fails `k` times with
the message `boom` and then gives a route to the asked destination. -/
def stubFailing (k : Nat) : Provider Nat where
  VpcID := fun s => (.ok "vpc-1", s + 1)
  ListRouteTables := fun s _ => (.ok ["vtb-1"], s + 1)
  ListRoute := fun s _ => (.ok [], s + 1)
  CreateRoute := fun s _ providerID cidr =>
    (if s < k then (none, some "boom") else (some ⟨"r", cidr, providerID⟩, none), s + 1)
  DeleteRoute := fun s _ _ _ => (none, s + 1)
  FindRoute := fun s _ _ _ => (.ok none, s + 1)

/-- A provider stub all of whose calls fail; `CreateRoute` fails with a
`not found` message. -/
def stubDown : Provider Nat where
  VpcID := fun s => (.error "metadata unreachable", s + 1)
  ListRouteTables := fun s _ => (.error "down", s + 1)
  ListRoute := fun s _ => (.error "down", s + 1)
  CreateRoute := fun s _ _ _ => ((none, some "instance not found"), s + 1)
  DeleteRoute := fun s _ _ _ => (some "down", s + 1)
  FindRoute := fun s _ _ _ => (.error "down", s + 1)

/-- A provider stub whose `CreateRoute` returns a route together with the error
`instance not found`. -/
def stubGone : Provider Nat where
  VpcID := fun s => (.ok "vpc-1", s + 1)
  ListRouteTables := fun s _ => (.ok ["vtb-1"], s + 1)
  ListRoute := fun s _ => (.ok [], s + 1)
  CreateRoute := fun s _ providerID cidr =>
    ((some ⟨"r", cidr, providerID⟩, some "instance not found"), s + 1)
  DeleteRoute := fun s _ _ _ => (none, s + 1)
  FindRoute := fun s _ _ _ => (.ok none, s + 1)

/-- A provider stub whose `ListRouteTables` gives the tables `ts`. -/
def stubTables (ts : List String) : Provider Nat where
  VpcID := fun s => (.ok "vpc-1", s + 1)
  ListRouteTables := fun s _ => (.ok ts, s + 1)
  ListRoute := fun s _ => (.ok [], s + 1)
  CreateRoute := fun s _ _ _ => ((none, none), s + 1)
  DeleteRoute := fun s _ _ _ => (none, s + 1)
  FindRoute := fun s _ _ _ => (.ok none, s + 1)

/-- The network 10.0.0.0/8. -/
def net10 : IPNet := { IP := [10, 0, 0, 0], Mask := [255, 0, 0, 0] }

/-- The network 10.1.0.0/24. -/
def net10_1 : IPNet := { IP := [10, 1, 0, 0], Mask := [255, 255, 255, 0] }

/-- The network 2001:db8::/32. -/
def net2001 : IPNet :=
  { IP := [0x20, 0x01, 0x0d, 0xb8, 0, 0, 0, 0, 0, 0, 0, 0, 0, 0, 0, 0],
    Mask := [255, 255, 255, 255, 0, 0, 0, 0, 0, 0, 0, 0, 0, 0, 0, 0] }

/-- A sample `getIPv4RouteForNode`: a node is given by the text of its pod CIDR;
the empty text is a node without pod CIDR, a text that does not parse is an error. -/
def podOf (node : String) : Except String (Option IPNet × String) :=
  if node = "" then .ok (none, "")
  else
    match ParseCIDR node with
    | none => .error ("invalid pod cidr on node spec: " ++ node)
    | some ipnet => .ok (some ipnet, ipnet.String)

/-- Every entry is a byte. -/
def isBytes (l : List Nat) : Prop := ∀ b ∈ l, b < 256

/-- An IPv4 network as `net.ParseCIDR` and `net.CIDRMask` build it: four address
bytes and the mask of `n` leading ones, `n ≤ 32`. -/
def IsIPv4Net (P : IPNet) : Prop :=
  P.IP.length = 4 ∧ isBytes P.IP ∧ ∃ n, n ≤ 32 ∧ P.Mask = CIDRMask n 32

/-- A scope network as the callers of `containsRoute` build it: what
`net.ParseCIDR` gives for some text (IPv4 or IPv6), or any IPv4 network. -/
def IsScopeNet (P : IPNet) : Prop :=
  IsIPv4Net P ∨ ∃ T, ParseCIDR T = some P

/-- The number of groups that `appendTo6Loop` prints from group `i` on; it
follows the recursion of `appendTo6Loop`. -/
def groupsPrinted (z : Nat × Nat) : Nat → Nat → Nat
  | 0, _ => 0
  | fuel + 1, i =>
    if i ≥ 8 then 0
    else if i = z.1 then
      if z.2 ≥ 8 then 0 else 1 + groupsPrinted z fuel (z.2 + 1)
    else 1 + groupsPrinted z fuel (i + 1)

/-- Whether `appendTo6Loop` prints the ellipsis from group `i` on. -/
def runPrinted (z : Nat × Nat) : Nat → Nat → Bool
  | 0, _ => false
  | fuel + 1, i =>
    if i ≥ 8 then false
    else if i = z.1 then true
    else runPrinted z fuel (i + 1)

/-- A zero run as the first loop of `appendTo6` leaves it: none, or at least two
groups inside the eight. -/
def GoodRun (z : Nat × Nat) : Prop :=
  z = (255, 255) ∨ (z.1 + 2 ≤ z.2 ∧ z.2 ≤ 8)

/-- What a strict result of `containsRoute` says about a destination text `C` and
a network `P`: `C` parses, is not the text of `P`, every address of the parsed
network lies in `P`, and, when `C` is the text that the parsed network itself
prints and `P` is a parsed IPv4 network, some address of `P` lies outside it. -/
def InsideNotSameText (P : IPNet) (C : String) : Prop :=
  ∃ cidr, ParseCIDR C = some cidr ∧ P.String ≠ C ∧
    (∀ ip, isBytes ip → cidr.Contains ip = true → P.Contains ip = true) ∧
    (cidr.String = C → P.IP.length = 4 → (∃ T, ParseCIDR T = some P) →
      ∃ ip, isBytes ip ∧ P.Contains ip = true ∧ cidr.Contains ip = false)

/-- A query key matches a field: the key is empty (not given) or equal to it. -/
def keyMatches (key field : String) : Bool := key == "" || field == key

/-- A cached route matches a query of `findRoute`: each of the two keys that is
given equals the field of the route. -/
def matchesQuery (pvid cidr : String) (route : Route) : Bool :=
  keyMatches pvid route.ProviderId && keyMatches cidr route.DestinationCIDR

/-- A node is eligible for route creation: node route management is enabled, the
node has no exclusion label, its Ready condition is not Unknown, its providerID
is not empty, and its pod CIDR is obtained without error and is not empty. -/
def eligible {σ Node : Type} (r : ReconcileRoute σ Node) (node : Node) : Bool :=
  r.configRoutes && !r.HasExcludeLabel node &&
  !((r.FindCondition node NodeReady).2 &&
    (r.FindCondition node NodeReady).1.Status == ConditionUnknown) &&
  r.ProviderID node != "" &&
  (match r.getIPv4RouteForNode node with
    | .ok (_, ipv4RouteCidr) => ipv4RouteCidr != ""
    | .error _ => false)

/-- The text of the pod CIDR of a node, empty when it is not obtained. -/
def podCIDRText {σ Node : Type} (r : ReconcileRoute σ Node) (node : Node) : String :=
  match r.getIPv4RouteForNode node with
  | .ok (_, ipv4RouteCidr) => ipv4RouteCidr
  | .error _ => ""

/-- The invocations of `addRouteForNode` among the steps, in order: table, pod
CIDR text, providerID and node of each. -/
def creations {Node : Type} : List (Step Node) → List (String × String × String × Node)
  | [] => []
  | Step.addRouteForNode table cidr prvdId node :: rest =>
    (table, cidr, prvdId, node) :: creations rest
  | _ :: rest => creations rest

/-- The provider calls among the steps, in order. -/
def providerCalls {Node : Type} : List (Step Node) → List Call
  | [] => []
  | Step.provider c :: rest => c :: providerCalls rest
  | _ :: rest => providerCalls rest

/-- A listed route is in scope: `containsRoute` on the cluster scope and its
destination returns without error with its first result true. -/
def inScope (clusterCIDR : Option IPNet) (route : Route) : Bool :=
  match containsRoute clusterCIDR route.DestinationCIDR with
  | .ok (contains, _) => contains
  | .error _ => false

/-- A listed route is to be deleted: it is in scope and conflicts with the nodes. -/
def toDelete {σ Node : Type} (r : ReconcileRoute σ Node) (nodes : List Node)
    (clusterCIDR : Option IPNet) (route : Route) : Bool :=
  inScope clusterCIDR route && conflictWithNodes r.getIPv4RouteForNode route.DestinationCIDR nodes

/-- The `DeleteRoute` call that the pass issues for a listed route. -/
def deleteCall (table : String) (route : Route) : Call :=
  Call.DeleteRoute table route.ProviderId route.DestinationCIDR

/-- A sample node: its name, provider id, pod CIDR text, exclusion label and the
status of its Ready condition (empty when it has none). -/
structure SampleNode where
  /-- node name -/
  name : String
  /-- provider id -/
  providerID : String
  /-- pod CIDR text -/
  podCIDR : String
  /-- has the exclusion label -/
  excluded : Bool
  /-- status of the Ready condition -/
  ready : String
deriving DecidableEq, Repr

/-- A sample receiver over sample nodes and a counting outside state: route
management is enabled, `addRouteForNode` and `updateNetworkingCondition` succeed. -/
def sampleReconcile (p : Provider Nat) (clusterCIDR : String) : ReconcileRoute Nat SampleNode where
  cloud := p
  configRoutes := true
  ClusterCIDR := clusterCIDR
  HasExcludeLabel := fun node => node.excluded
  FindCondition := fun node conditionType =>
    if conditionType = NodeReady ∧ node.ready ≠ "" then (⟨node.ready⟩, true) else (⟨""⟩, false)
  ProviderID := fun node => node.providerID
  getIPv4RouteForNode := fun node => podOf node.podCIDR
  addRouteForNode := fun s _ _ _ _ _ => (none, s + 1)
  updateNetworkingCondition := fun s _ _ => (none, s + 1)

/-- A provider stub whose `ListRoute` gives the routes `rs`; its `DeleteRoute`
fails. -/
def stubRoutes (rs : List Route) : Provider Nat where
  VpcID := fun s => (.ok "vpc-1", s + 1)
  ListRouteTables := fun s _ => (.ok ["vtb-1"], s + 1)
  ListRoute := fun s _ => (.ok rs, s + 1)
  CreateRoute := fun s _ _ _ => ((none, none), s + 1)
  DeleteRoute := fun s _ _ _ => (some "delete failed", s + 1)
  FindRoute := fun s _ _ _ => (.ok none, s + 1)

/-- The sample node A: ready, with provider id and pod CIDR 10.1.0.0/24. -/
def nodeA : SampleNode :=
  { name := "A", providerID := "cn.i-a", podCIDR := "10.1.0.0/24", excluded := false,
    ready := "True" }

/-- The sample node B: ready, pod CIDR 10.2.0.0/24, no provider id. -/
def nodeB : SampleNode :=
  { name := "B", providerID := "", podCIDR := "10.2.0.0/24", excluded := false, ready := "True" }

/-- The sample routes 10.1.0.0/24 (to node A) and 10.99.0.0/24. -/
def sampleRoutes : List Route :=
  [⟨"r1", "10.1.0.0/24", "cn.i-a"⟩, ⟨"r2", "10.99.0.0/24", "cn.i-x"⟩]

theorem bnot_testBit (m j : Nat) : (bnot m).testBit j = (m.testBit j != decide (j < 8)) := by
  unfold bnot
  rw [Nat.testBit_xor]
  congr 1
  have : (0xff : Nat) = 2 ^ 8 - 1 := by norm_num
  rw [this, Nat.testBit_two_pow_sub_one]

theorem byte_sub (n pm a cm x : Nat) (hx : x < 256) (ha : a &&& cm = a)
    (h1 : n &&& pm = a &&& pm) (h2 : n &&& pm = (a ||| bnot cm) &&& pm)
    (h3 : a &&& cm = x &&& cm) : n &&& pm = x &&& pm := by
  rw [h1]
  apply Nat.eq_of_testBit_eq
  intro j
  have e1 := congrArg (fun t => t.testBit j) (h1.symm.trans h2)
  have e2 := congrArg (fun t => t.testBit j) h3
  have e3 := congrArg (fun t => t.testBit j) ha
  simp only [Nat.testBit_and, Nat.testBit_or, bnot_testBit] at e1 e2 e3 ⊢
  by_cases hj : j < 8
  · simp only [hj, decide_True] at e1
    revert e1 e2 e3
    cases a.testBit j <;> cases cm.testBit j <;> cases pm.testBit j <;> cases x.testBit j <;> simp
  · have hxj : x.testBit j = false := by
      apply Nat.testBit_lt_two_pow
      calc x < 256 := hx
        _ = 2 ^ 8 := by norm_num
        _ ≤ 2 ^ j := Nat.pow_le_pow_right (by norm_num) (by omega)
    rw [hxj]
    revert e1 e2 e3
    rw [hxj]
    cases a.testBit j <;> cases cm.testBit j <;> cases pm.testBit j <;> simp

theorem containsLoop_cons (n m x : Nat) (nn ms ip : List Nat) :
    containsLoop (n :: nn) (m :: ms) (x :: ip) = true ↔
      (n &&& m = x &&& m ∧ containsLoop nn ms ip = true) := by
  simp [containsLoop]

theorem containsLoop_nil_right (nn ms : List Nat) : containsLoop nn ms [] = true := by
  cases nn <;> cases ms <;> simp [containsLoop]

theorem containsLoop_sub {a cm : List Nat}
    (hmask : List.Forall₂ (fun a m => a &&& m = a) a cm) :
    ∀ (nn pm x : List Nat), isBytes x → x.length = a.length →
      containsLoop nn pm a = true →
      containsLoop nn pm (List.zipWith (fun a m => a ||| bnot m) a cm) = true →
      containsLoop a cm x = true → containsLoop nn pm x = true := by
  induction hmask with
  | nil =>
    intro nn pm x _ hlen _ _ _
    have : x = [] := List.length_eq_zero.mp (by simpa using hlen)
    subst this
    exact containsLoop_nil_right nn pm
  | @cons a0 c0 as cs h0 _ ih =>
    intro nn pm x hx hlen h1 h2 h3
    cases x with
    | nil => exact containsLoop_nil_right nn pm
    | cons x0 xs =>
      cases nn with
      | nil => simp [containsLoop]
      | cons n0 ns =>
        cases pm with
        | nil => simp [containsLoop]
        | cons p0 ps =>
          rw [List.zipWith_cons_cons] at h2
          rw [containsLoop_cons] at h1 h2 h3 ⊢
          refine ⟨byte_sub n0 p0 a0 c0 x0 (hx x0 (by simp)) h0 h1.1 h2.1 h3.1, ?_⟩
          exact ih ns ps xs (fun b hb => hx b (by simp [hb])) (by simpa using hlen) h1.2 h2.2 h3.2

theorem land_bnot_self (a m : Nat) (hm : m < 256) : a &&& m = (a ||| bnot m) &&& m := by
  apply Nat.eq_of_testBit_eq
  intro j
  simp only [Nat.testBit_and, Nat.testBit_or, bnot_testBit]
  by_cases hj : j < 8
  · simp only [hj, decide_True]
    cases a.testBit j <;> cases m.testBit j <;> simp
  · have hmj : m.testBit j = false := by
      apply Nat.testBit_lt_two_pow
      calc m < 256 := hm
        _ = 2 ^ 8 := by norm_num
        _ ≤ 2 ^ j := Nat.pow_le_pow_right (by norm_num) (by omega)
    simp [hmj]

theorem containsLoop_self (a m : List Nat) : containsLoop a m a = true := by
  induction a generalizing m with
  | nil => exact containsLoop_nil_right [] m
  | cons a0 as ih =>
    cases m with
    | nil => simp [containsLoop]
    | cons m0 ms => rw [containsLoop_cons]; exact ⟨rfl, ih ms⟩

theorem containsLoop_last (a m : List Nat) (hm : isBytes m) :
    containsLoop a m (List.zipWith (fun a m => a ||| bnot m) a m) = true := by
  induction a generalizing m with
  | nil => simp [containsLoop]
  | cons a0 as ih =>
    cases m with
    | nil => simp [containsLoop]
    | cons m0 ms =>
      rw [List.zipWith_cons_cons, containsLoop_cons]
      exact ⟨land_bnot_self a0 m0 (hm m0 (by simp)), ih ms (fun b hb => hm b (by simp [hb]))⟩

/-! ## Lemmas: what the parsers build -/

theorem parseIPv4Loop_length : ∀ (s : List Char) (prev : Option Char) (fields : List Nat)
    (val pos digLen : Nat) (r : List Nat), fields.length = pos → pos ≤ 3 →
    parseIPv4Loop s prev fields val pos digLen = some r → r.length = 4 := by
  intro s
  induction s with
  | nil =>
    intro prev fields val pos digLen r hf hp h
    simp only [parseIPv4Loop] at h
    split at h
    · exact absurd h (by simp)
    · simp only [Option.some.injEq] at h
      subst h
      simp
      omega
  | cons c rest ih =>
    intro prev fields val pos digLen r hf hp h
    simp only [parseIPv4Loop] at h
    split at h
    · split at h
      · exact absurd h (by simp)
      · split at h
        · exact absurd h (by simp)
        · exact ih _ _ _ _ _ r hf hp h
    · split at h
      · split at h
        · exact absurd h (by simp)
        · split at h
          · exact absurd h (by simp)
          · exact ih _ _ _ _ _ r (by simp [hf]) (by omega) h
      · exact absurd h (by simp)

theorem parseIPv4_length (s : List Char) (r : List Nat) (h : parseIPv4 s = some r) :
    r.length = 4 :=
  parseIPv4Loop_length s none [] 0 0 0 r rfl (by omega) h

theorem parseIPv6Loop_length : ∀ (fuel : Nat) (s : List Char) (ip : List Nat) (ell : Option Nat)
    (rest : List Char) (ip1 : List Nat) (ell1 : Option Nat),
    ip.length ≤ 16 → ip.length % 2 = 0 → (∀ e, ell = some e → e ≤ ip.length) →
    parseIPv6Loop fuel s ip ell = some (rest, ip1, ell1) →
    ip1.length ≤ 16 ∧ ∀ e, ell1 = some e → e ≤ ip1.length := by
  intro fuel
  induction fuel with
  | zero =>
    intro s ip ell rest ip1 ell1 hl he hell h
    simp only [parseIPv6Loop, Option.some.injEq, Prod.mk.injEq] at h
    obtain ⟨-, rfl, rfl⟩ := h
    exact ⟨hl, hell⟩
  | succ fuel ih =>
    intro s ip ell rest ip1 ell1 hl he hell h
    unfold parseIPv6Loop at h
    split at h
    · simp only [Option.some.injEq, Prod.mk.injEq] at h
      obtain ⟨-, rfl, rfl⟩ := h
      exact ⟨hl, hell⟩
    · rename_i hlt
      split at h
      · exact absurd h (by simp)
      · rename_i off acc rst hg
        split at h
        · exact absurd h (by simp)
        · split at h
          · split at h
            · exact absurd h (by simp)
            · split at h
              · exact absurd h (by simp)
              · rename_i h4
                split at h
                · exact absurd h (by simp)
                · rename_i ip4 hp4
                  simp only [Option.some.injEq, Prod.mk.injEq] at h
                  obtain ⟨-, rfl, rfl⟩ := h
                  have := parseIPv4_length _ _ hp4
                  refine ⟨by simp; omega, fun e hE => ?_⟩
                  have := hell e hE
                  simp; omega
          · have hlen1 : (ip ++ [acc >>> 8, acc % 256]).length = ip.length + 2 := by simp
            have hl1 : (ip ++ [acc >>> 8, acc % 256]).length ≤ 16 := by omega
            have he1 : (ip ++ [acc >>> 8, acc % 256]).length % 2 = 0 := by omega
            split at h
            · simp only [Option.some.injEq, Prod.mk.injEq] at h
              obtain ⟨-, rfl, rfl⟩ := h
              refine ⟨hl1, fun e hE => ?_⟩
              have := hell e hE
              omega
            · split at h
              · exact absurd h (by simp)
              · split at h
                · exact absurd h (by simp)
                · split at h
                  · split at h
                    · exact absurd h (by simp)
                    · split at h
                      · simp only [Option.some.injEq, Prod.mk.injEq] at h
                        obtain ⟨-, rfl, rfl⟩ := h
                        refine ⟨hl1, fun e hE => ?_⟩
                        simp only [Option.some.injEq] at hE
                        omega
                      · refine ih _ _ _ _ _ _ hl1 he1 (fun e hE => ?_) h
                        simp only [Option.some.injEq] at hE
                        omega
                  · refine ih _ _ _ _ _ _ hl1 he1 (fun e hE => ?_) h
                    have := hell e hE
                    omega

theorem expandEllipsis_length (r : Option (List Char × List Nat × Option Nat)) (ip : List Nat)
    (hinv : ∀ rest ip1 ell1, r = some (rest, ip1, ell1) →
      ip1.length ≤ 16 ∧ ∀ e, ell1 = some e → e ≤ ip1.length)
    (h : expandEllipsis r = some ip) : ip.length = 16 := by
  unfold expandEllipsis at h
  split at h
  · exact absurd h (by simp)
  · rename_i rest ip1 ell1
    have hi := hinv rest ip1 ell1 rfl
    split at h
    · exact absurd h (by simp)
    · split at h
      · split at h
        · exact absurd h (by simp)
        · rename_i e
          simp only [Option.some.injEq] at h
          subst h
          have := hi.2 e rfl
          simp
          omega
      · split at h
        · exact absurd h (by simp)
        · simp only [Option.some.injEq] at h
          subst h
          omega

theorem parseIPv6_length (s : List Char) (r : List Nat × List Char) (h : parseIPv6 s = some r) :
    r.1.length = 16 := by
  unfold parseIPv6 at h
  split at h
  · exact absurd h (by simp)
  · rename_i s0 zone _
    split at h
    · split at h
      · simp only [Option.some.injEq] at h
        subst h
        simp
      · cases he : expandEllipsis (parseIPv6Loop 8 (List.drop 2 s0) [] (some 0)) with
        | none => simp [he] at h
        | some ip =>
          simp only [he, Option.map_some', Option.some.injEq] at h
          subst h
          refine expandEllipsis_length _ ip (fun rest ip1 ell1 hr => ?_) he
          exact parseIPv6Loop_length 8 _ [] _ rest ip1 ell1 (by simp) (by simp)
            (fun e hE => by simp only [Option.some.injEq] at hE; omega) hr
    · cases he : expandEllipsis (parseIPv6Loop 8 s0 [] none) with
      | none => simp [he] at h
      | some ip =>
        simp only [he, Option.map_some', Option.some.injEq] at h
        subst h
        refine expandEllipsis_length _ ip (fun rest ip1 ell1 hr => ?_) he
        exact parseIPv6Loop_length 8 _ [] _ rest ip1 ell1 (by simp) (by simp)
          (fun e hE => absurd hE (by simp)) hr

theorem parseAddrScan_As16 (whole : List Char) : ∀ (s : List Char) (a : Addr),
    parseAddrScan whole s = some a →
    (∃ b, a = Addr.v4 b ∧ b.length = 4) ∨ (∃ b z, a = Addr.v6 b z ∧ b.length = 16) := by
  intro s
  induction s with
  | nil => intro a h; simp [parseAddrScan] at h
  | cons c cs ih =>
    intro a h
    simp only [parseAddrScan] at h
    split at h
    · cases h4 : parseIPv4 whole with
      | none => simp [h4] at h
      | some b =>
        simp only [h4, Option.map_some', Option.some.injEq] at h
        exact Or.inl ⟨b, h.symm, parseIPv4_length _ _ h4⟩
    · split at h
      · cases h6 : parseIPv6 whole with
        | none => simp [h6] at h
        | some r =>
          simp only [h6, Option.map_some', Option.some.injEq] at h
          exact Or.inr ⟨r.1, r.2, h.symm, parseIPv6_length _ _ h6⟩
      · split at h
        · exact absurd h (by simp)
        · exact ih a h

theorem cidrMaskLoop_length : ∀ (l n : Nat), (cidrMaskLoop l n).length = l := by
  intro l
  induction l with
  | zero => intro n; simp [cidrMaskLoop]
  | succ l ih =>
    intro n
    simp only [cidrMaskLoop]
    split <;> simp [ih]

theorem bnot_shift_lt (n : Nat) : bnot (0xff >>> n) < 256 := by
  have h : (0xff >>> n) < 2 ^ 8 := by
    rw [Nat.shiftRight_eq_div_pow]
    exact lt_of_le_of_lt (Nat.div_le_self _ _) (by norm_num)
  have : bnot (0xff >>> n) < 2 ^ 8 := by
    unfold bnot
    exact Nat.xor_lt_two_pow h (by norm_num)
  simpa using this

theorem cidrMaskLoop_bytes : ∀ (l n : Nat), isBytes (cidrMaskLoop l n) := by
  intro l
  induction l with
  | zero => intro n b hb; simp [cidrMaskLoop] at hb
  | succ l ih =>
    intro n b hb
    simp only [cidrMaskLoop] at hb
    split at hb
    · rcases List.mem_cons.mp hb with rfl | hb
      · norm_num
      · exact ih _ b hb
    · rcases List.mem_cons.mp hb with rfl | hb
      · exact bnot_shift_lt n
      · exact ih _ b hb

theorem zipWith_and_masked : ∀ (b m : List Nat), b.length = m.length →
    List.Forall₂ (fun a m => a &&& m = a) (List.zipWith (fun a m => a &&& m) b m) m := by
  intro b
  induction b with
  | nil =>
    intro m h
    have : m = [] := List.length_eq_zero.mp (by simpa using h.symm)
    subst this
    exact List.Forall₂.nil
  | cons b0 bs ih =>
    intro m h
    cases m with
    | nil => simp at h
    | cons m0 ms =>
      rw [List.zipWith_cons_cons]
      refine List.Forall₂.cons ?_ (ih ms (by simpa using h))
      rw [Nat.land_assoc, Nat.and_self]

theorem parseCIDRChars_some (s : List Char) (cidr : IPNet) (h : parseCIDRChars s = some cidr) :
    ∃ a n, ParseAddr (s.takeWhile (fun c => c != '/')) = some a ∧ n ≤ a.BitLen ∧
      cidr = { IP := ipMask a.As16 (CIDRMask n a.BitLen), Mask := CIDRMask n a.BitLen } := by
  unfold parseCIDRChars at h
  split at h
  · simp only at h
    split at h
    · exact absurd h (by simp)
    · rename_i a ha
      split at h
      · exact absurd h (by simp)
      · split at h
        · exact absurd h (by simp)
        · rename_i hcond
          simp only [not_or, not_lt] at hcond
          simp only [Option.some.injEq] at h
          exact ⟨a, _, ha, hcond.2.2, h.symm⟩
  · exact absurd h (by simp)

theorem cidr_v4_shape (b : List Nat) (n : Nat) (hb : b.length = 4) (hn : n ≤ 32) :
    CIDRMask n 32 = cidrMaskLoop 4 n ∧
    ipMask (v4InV6Lead ++ b) (CIDRMask n 32) = List.zipWith (fun a m => a &&& m) b (cidrMaskLoop 4 n) := by
  have hm : CIDRMask n 32 = cidrMaskLoop 4 n := by
    simp [CIDRMask, IPv4len, IPv6len]
    omega
  refine ⟨hm, ?_⟩
  rw [hm]
  have hl := cidrMaskLoop_length 4 n
  simp [ipMask, hl, hb, IPv4len, IPv6len, v4InV6Lead]

theorem cidr_v6_shape (b : List Nat) (n : Nat) (hb : b.length = 16) (hn : n ≤ 128) :
    CIDRMask n 128 = cidrMaskLoop 16 n ∧
    ipMask b (CIDRMask n 128) = List.zipWith (fun a m => a &&& m) b (cidrMaskLoop 16 n) := by
  have hm : CIDRMask n 128 = cidrMaskLoop 16 n := by
    simp [CIDRMask, IPv4len, IPv6len]
    omega
  refine ⟨hm, ?_⟩
  rw [hm]
  have hl := cidrMaskLoop_length 16 n
  simp [ipMask, hl, hb, IPv4len, IPv6len]

/-- What `net.ParseCIDR` builds: the mask is the `CIDRMask` of 4 or 16 bytes and
the network number is an address of that length, masked. -/
theorem ParseCIDR_shape (C : String) (cidr : IPNet) (h : ParseCIDR C = some cidr) :
    ∃ l n b, (l = 4 ∨ l = 16) ∧ n ≤ 8 * l ∧ b.length = l ∧ cidr.Mask = cidrMaskLoop l n ∧
      cidr.IP = List.zipWith (fun a m => a &&& m) b (cidrMaskLoop l n) := by
  obtain ⟨a, n, ha, hn, rfl⟩ := parseCIDRChars_some _ _ h
  rcases parseAddrScan_As16 _ _ _ ha with ⟨b, rfl, hb⟩ | ⟨b, z, rfl, hb⟩
  · have := cidr_v4_shape b n hb hn
    exact ⟨4, n, b, Or.inl rfl, by simpa [Addr.BitLen] using hn, hb, this.1, this.2⟩
  · have := cidr_v6_shape b n hb hn
    exact ⟨16, n, b, Or.inr rfl, by simpa [Addr.BitLen] using hn, hb, this.1, this.2⟩

/-! ## Lemmas: containment of address ranges -/

theorem To4_of_len4 (ip : List Nat) (h : ip.length = 4) : To4 ip = some ip := by
  simp [To4, h, IPv4len]

theorem To4_some_length (ip x : List Nat) (h : To4 ip = some x) : x.length = 4 := by
  unfold To4 at h
  split at h
  · simp only [Option.some.injEq] at h
    subst h
    assumption
  · split at h
    · rename_i hc
      simp only [Option.some.injEq] at h
      subst h
      simp [hc.1, IPv6len]
    · exact absurd h (by simp)

theorem To4_of_len16 (ip x : List Nat) (h16 : ip.length = 16) (h : To4 ip = some x) :
    x = ip.drop 12 := by
  unfold To4 at h
  split at h
  · rename_i h4
    simp [IPv4len] at h4
    omega
  · split at h
    · simp only [Option.some.injEq] at h
      exact h.symm
    · exact absurd h (by simp)

theorem isBytes_drop (l : List Nat) (n : Nat) (h : isBytes l) : isBytes (l.drop n) :=
  fun b hb => h b (List.mem_of_mem_drop hb)

theorem To4_getD_bytes (ip : List Nat) (h : isBytes ip) : isBytes ((To4 ip).getD ip) := by
  unfold To4
  split
  · exact h
  · split
    · exact isBytes_drop _ _ h
    · exact h

theorem Contains_iff (P : IPNet) (ip : List Nat) :
    P.Contains ip = true ↔
      ((To4 ip).getD ip).length = ((networkNumberAndMask P).getD ([], [])).1.length ∧
      containsLoop ((networkNumberAndMask P).getD ([], [])).1
        ((networkNumberAndMask P).getD ([], [])).2 ((To4 ip).getD ip) = true := by
  unfold IPNet.Contains
  simp only
  split
  · rename_i h
    simp [h]
  · rename_i h
    simp only [ne_eq, Decidable.not_not] at h
    simp [h]

/-- The normal form of a parsed network: the pair `networkNumberAndMask` gives
is masked, its mask is made of bytes, and the network contains what `To4`
leaves of its own number. -/
theorem parsed_norm (cidr : IPNet) (l n : Nat) (b : List Nat) (hl : l = 4 ∨ l = 16)
    (hb : b.length = l) (hM : cidr.Mask = cidrMaskLoop l n)
    (hI : cidr.IP = List.zipWith (fun a m => a &&& m) b (cidrMaskLoop l n)) :
    ∃ a cm, networkNumberAndMask cidr = some (a, cm) ∧
      List.Forall₂ (fun a m => a &&& m = a) a cm ∧ isBytes cm ∧
      (To4 cidr.IP).getD cidr.IP = a ∧
      (a.length = 4 ∨ a.length = 16) ∧
      (∀ len, ((To4 (lastIP cidr)).getD (lastIP cidr)).length = len → a.length = len →
        (To4 (lastIP cidr)).getD (lastIP cidr) = List.zipWith (fun a m => a ||| bnot m) a cm) := by
  have hml : cidr.Mask.length = l := by rw [hM, cidrMaskLoop_length]
  have hil : cidr.IP.length = l := by rw [hI]; simp [cidrMaskLoop_length, hb]
  have hmasked : List.Forall₂ (fun a m => a &&& m = a) cidr.IP cidr.Mask := by
    rw [hI, hM]
    exact zipWith_and_masked _ _ (by rw [hb, cidrMaskLoop_length])
  have hbytes : isBytes cidr.Mask := by rw [hM]; exact cidrMaskLoop_bytes _ _
  have hlast : (lastIP cidr).length = l := by simp [lastIP, hml, hil]
  rcases hl with rfl | rfl
  · refine ⟨cidr.IP, cidr.Mask, ?_, hmasked, hbytes, ?_, Or.inl hil, ?_⟩
    · simp [networkNumberAndMask, To4_of_len4 _ hil, hml, hil, IPv4len]
    · simp [To4_of_len4 _ hil]
    · intro len _ _
      rw [To4_of_len4 _ hlast]
      rfl
  · cases h4 : To4 cidr.IP with
    | none =>
      refine ⟨cidr.IP, cidr.Mask, ?_, hmasked, hbytes, ?_, Or.inr hil, ?_⟩
      · simp [networkNumberAndMask, h4, hml, hil, IPv4len, IPv6len]
      · simp
      · intro len h1 h2
        cases h5 : To4 (lastIP cidr) with
        | none => simp [lastIP]
        | some x =>
          rw [h5] at h1
          simp only [Option.getD_some] at h1
          have := To4_some_length _ _ h5
          omega
    | some v =>
      have hv := To4_of_len16 _ _ hil h4
      subst hv
      refine ⟨cidr.IP.drop 12, cidr.Mask.drop 12, ?_, List.forall₂_drop 12 hmasked,
        isBytes_drop _ _ hbytes, ?_, Or.inl (by simp [hil]), ?_⟩
      · simp [networkNumberAndMask, h4, hml, hil, IPv4len, IPv6len]
      · simp
      · intro len h1 h2
        cases h5 : To4 (lastIP cidr) with
        | none =>
          rw [h5] at h1
          simp only [Option.getD_none] at h1
          simp [hil] at h2
          omega
        | some x =>
          have hx := To4_of_len16 _ _ hlast h5
          subst hx
          simp [lastIP, List.drop_zipWith]

/-- When a network contains the first and the last address of a parsed network, it
contains every address (of bytes) that the parsed network contains. -/
theorem range_sub_of_endpoints (P cidr : IPNet) (C : String) (hparse : ParseCIDR C = some cidr)
    (h1 : P.Contains cidr.IP = true) (h2 : P.Contains (lastIP cidr) = true) :
    ∀ ip, isBytes ip → cidr.Contains ip = true → P.Contains ip = true := by
  obtain ⟨l, n, b, hl, -, hb, hM, hI⟩ := ParseCIDR_shape C cidr hparse
  obtain ⟨a, cm, hnorm, hmasked, -, hfirst, -, hlast⟩ := parsed_norm cidr l n b hl hb hM hI
  intro ip hip hc
  rw [Contains_iff] at h1 h2 hc ⊢
  rw [hnorm] at hc
  simp only [Option.getD_some] at hc
  rw [hfirst] at h1
  have hl2 := hlast _ h2.1 h1.1
  rw [hl2] at h2
  refine ⟨hc.1.trans h1.1, ?_⟩
  exact containsLoop_sub hmasked _ _ _ (To4_getD_bytes ip hip) hc.1 h1.2 h2.2 hc.2

theorem zipWith_and_bytes : ∀ (b m : List Nat), isBytes m →
    isBytes (List.zipWith (fun a m => a &&& m) b m) := by
  intro b
  induction b with
  | nil => intro m _ x hx; simp at hx
  | cons b0 bs ih =>
    intro m hm x hx
    cases m with
    | nil => simp at hx
    | cons m0 ms =>
      rw [List.zipWith_cons_cons] at hx
      rcases List.mem_cons.mp hx with rfl | hx
      · exact lt_of_le_of_lt Nat.and_le_right (hm m0 (by simp))
      · exact ih ms (fun y hy => hm y (by simp [hy])) x hx

theorem bnot_lt (m : Nat) (hm : m < 256) : bnot m < 256 := by
  have : bnot m < 2 ^ 8 := by
    unfold bnot
    exact Nat.xor_lt_two_pow (by simpa using hm) (by norm_num)
  simpa using this

theorem zipWith_or_bytes : ∀ (a m : List Nat), isBytes a → isBytes m →
    isBytes (List.zipWith (fun a m => a ||| bnot m) a m) := by
  intro a
  induction a with
  | nil => intro m _ _ x hx; simp at hx
  | cons a0 as ih =>
    intro m ha hm x hx
    cases m with
    | nil => simp at hx
    | cons m0 ms =>
      rw [List.zipWith_cons_cons] at hx
      rcases List.mem_cons.mp hx with rfl | hx
      · have h1 : a0 < 2 ^ 8 := by simpa using ha a0 (by simp)
        have h2 : bnot m0 < 2 ^ 8 := by simpa using bnot_lt m0 (hm m0 (by simp))
        simpa using Nat.or_lt_two_pow h1 h2
      · exact ih ms (fun y hy => ha y (by simp [hy])) (fun y hy => hm y (by simp [hy])) x hx

/-- A parsed IPv4 network contains its first and its last address, and both are
made of bytes. -/
theorem parsed_endpoints (cidr : IPNet) (C : String) (hparse : ParseCIDR C = some cidr)
    (h4 : cidr.IP.length = 4) :
    (isBytes cidr.IP ∧ cidr.Contains cidr.IP = true) ∧
    (isBytes (lastIP cidr) ∧ cidr.Contains (lastIP cidr) = true) := by
  obtain ⟨l, n, b, hl, -, hb, hM, hI⟩ := ParseCIDR_shape C cidr hparse
  have hl4 : l = 4 := by
    have : cidr.IP.length = l := by rw [hI]; simp [cidrMaskLoop_length, hb]
    omega
  subst hl4
  have hml : cidr.Mask.length = 4 := by rw [hM, cidrMaskLoop_length]
  have hmb : isBytes cidr.Mask := by rw [hM]; exact cidrMaskLoop_bytes _ _
  have hib : isBytes cidr.IP := by rw [hI]; exact zipWith_and_bytes _ _ (cidrMaskLoop_bytes _ _)
  have hlast : (lastIP cidr).length = 4 := by simp [lastIP, hml, h4]
  have hnorm : networkNumberAndMask cidr = some (cidr.IP, cidr.Mask) := by
    simp [networkNumberAndMask, To4_of_len4 _ h4, hml, h4, IPv4len]
  refine ⟨⟨hib, ?_⟩, ⟨zipWith_or_bytes _ _ hib hmb, ?_⟩⟩
  · rw [Contains_iff, hnorm, To4_of_len4 _ h4]
    exact ⟨rfl, containsLoop_self _ _⟩
  · rw [Contains_iff, hnorm, To4_of_len4 _ hlast]
    exact ⟨by simp [hlast, h4], containsLoop_last _ _ hmb⟩

theorem testBit_byte_high (m j : Nat) (hm : m < 256) (hj : ¬ j < 8) : m.testBit j = false := by
  apply Nat.testBit_lt_two_pow
  calc m < 256 := hm
    _ = 2 ^ 8 := by norm_num
    _ ≤ 2 ^ j := Nat.pow_le_pow_right (by norm_num) (by omega)

theorem byte_antisymm (n pm a cm : Nat) (hpm : pm < 256) (hcm : cm < 256)
    (hnm : n &&& pm = n) (ham : a &&& cm = a)
    (h1 : n &&& pm = a &&& pm) (h2 : n &&& pm = (a ||| bnot cm) &&& pm)
    (h3 : a &&& cm = n &&& cm) (h4 : a &&& cm = (n ||| bnot pm) &&& cm) :
    n = a ∧ pm = cm := by
  have key : ∀ j, n.testBit j = a.testBit j ∧ pm.testBit j = cm.testBit j := by
    intro j
    have e1 := congrArg (fun t => t.testBit j) h1
    have e2 := congrArg (fun t => t.testBit j) h2
    have e3 := congrArg (fun t => t.testBit j) h3
    have e4 := congrArg (fun t => t.testBit j) h4
    have e5 := congrArg (fun t => t.testBit j) hnm
    have e6 := congrArg (fun t => t.testBit j) ham
    simp only [Nat.testBit_and, Nat.testBit_or, bnot_testBit] at e1 e2 e3 e4 e5 e6
    by_cases hj : j < 8
    · simp only [hj, decide_True] at e2 e4
      revert e1 e2 e3 e4 e5 e6
      cases a.testBit j <;> cases cm.testBit j <;> cases pm.testBit j <;> cases n.testBit j <;> simp
    · rw [testBit_byte_high pm j hpm hj] at e1 e2 e4 e5 ⊢
      rw [testBit_byte_high cm j hcm hj] at e2 e3 e4 e6 ⊢
      revert e5 e6
      cases a.testBit j <;> cases n.testBit j <;> simp
  exact ⟨Nat.eq_of_testBit_eq (fun j => (key j).1), Nat.eq_of_testBit_eq (fun j => (key j).2)⟩

theorem containsLoop_antisymm {a cm : List Nat}
    (hmask : List.Forall₂ (fun a m => a &&& m = a) a cm) :
    ∀ (n pm : List Nat), List.Forall₂ (fun a m => a &&& m = a) n pm →
      isBytes cm → isBytes pm → n.length = a.length →
      containsLoop n pm a = true →
      containsLoop n pm (List.zipWith (fun a m => a ||| bnot m) a cm) = true →
      containsLoop a cm n = true →
      containsLoop a cm (List.zipWith (fun a m => a ||| bnot m) n pm) = true →
      n = a ∧ pm = cm := by
  induction hmask with
  | nil =>
    intro n pm hn _ _ hlen _ _ _ _
    have : n = [] := List.length_eq_zero.mp (by simpa using hlen)
    subst this
    cases hn
    exact ⟨rfl, rfl⟩
  | @cons a0 c0 as cs h0 _ ih =>
    intro n pm hn hcm hpm hlen h1 h2 h3 h4
    cases hn with
    | nil => simp at hlen
    | @cons n0 p0 ns ps hn0 hns =>
      rw [List.zipWith_cons_cons] at h2 h4
      rw [containsLoop_cons] at h1 h2 h3 h4
      have hb := byte_antisymm n0 p0 a0 c0 (hpm p0 (by simp)) (hcm c0 (by simp)) hn0 h0
        h1.1 h2.1 h3.1 h4.1
      have hr := ih ns ps hns (fun b hb => hcm b (by simp [hb])) (fun b hb => hpm b (by simp [hb]))
        (by simpa using hlen) h1.2 h2.2 h3.2 h4.2
      rw [hb.1, hb.2, hr.1, hr.2]
      exact ⟨rfl, rfl⟩

theorem parsed_norm4 (cidr : IPNet) (C : String) (hparse : ParseCIDR C = some cidr)
    (h4 : cidr.IP.length = 4) :
    networkNumberAndMask cidr = some (cidr.IP, cidr.Mask) ∧
    List.Forall₂ (fun a m => a &&& m = a) cidr.IP cidr.Mask ∧ isBytes cidr.Mask ∧
    (lastIP cidr).length = 4 := by
  obtain ⟨l, n, b, hl, -, hb, hM, hI⟩ := ParseCIDR_shape C cidr hparse
  have hl4 : l = 4 := by
    have : cidr.IP.length = l := by rw [hI]; simp [cidrMaskLoop_length, hb]
    omega
  subst hl4
  have hml : cidr.Mask.length = 4 := by rw [hM, cidrMaskLoop_length]
  refine ⟨?_, ?_, ?_, ?_⟩
  · simp [networkNumberAndMask, To4_of_len4 _ h4, hml, h4, IPv4len]
  · rw [hI, hM]
    exact zipWith_and_masked _ _ (by rw [hb, cidrMaskLoop_length])
  · rw [hM]; exact cidrMaskLoop_bytes _ _
  · simp [lastIP, hml, h4]

theorem String_of_norm (P Q : IPNet) (h : networkNumberAndMask P = networkNumberAndMask Q) :
    P.String = Q.String := by
  unfold IPNet.String
  rw [h]

/-- A parsed IPv4 network that contains both ends of a parsed network printed in
its own text, and is not that network's text, has an address outside it. -/
theorem proper_of_canonical (P cidr : IPNet) (T C : String) (hP : ParseCIDR T = some P)
    (hP4 : P.IP.length = 4) (hparse : ParseCIDR C = some cidr) (hcanon : cidr.String = C)
    (hne : P.String ≠ C)
    (h1 : P.Contains cidr.IP = true) (h2 : P.Contains (lastIP cidr) = true) :
    ∃ ip, isBytes ip ∧ P.Contains ip = true ∧ cidr.Contains ip = false := by
  by_contra hcon
  have hall : ∀ ip, isBytes ip → P.Contains ip = true → cidr.Contains ip = true := by
    intro ip hip hp
    by_contra hc
    exact hcon ⟨ip, hip, hp, by simpa using hc⟩
  obtain ⟨⟨hfb, hfc⟩, ⟨hlb, hlc⟩⟩ := parsed_endpoints P T hP hP4
  obtain ⟨hPnorm, hPmasked, hPbytes, hPlast⟩ := parsed_norm4 P T hP hP4
  obtain ⟨l, n, b, hl, -, hb, hM, hI⟩ := ParseCIDR_shape C cidr hparse
  obtain ⟨a, cm, hnorm, hmasked, hcmb, hfirst, -, hlast⟩ := parsed_norm cidr l n b hl hb hM hI
  have c1 := hall _ hfb hfc
  have c2 := hall _ hlb hlc
  rw [Contains_iff] at h1 h2 c1 c2
  rw [hPnorm] at h1 h2
  rw [hnorm] at c1 c2
  simp only [Option.getD_some] at h1 h2 c1 c2
  rw [hfirst] at h1
  rw [hlast _ h2.1 h1.1] at h2
  rw [To4_of_len4 _ hP4] at c1
  rw [To4_of_len4 _ hPlast] at c2
  simp only [Option.getD_some] at c1 c2
  have := containsLoop_antisymm hmasked P.IP P.Mask hPmasked hcmb hPbytes h1.1.symm
    h1.2 h2.2 c1.2 c2.2
  apply hne
  rw [← hcanon]
  apply String_of_norm
  rw [hPnorm, hnorm, this.1, this.2]

theorem strict_inside (P : IPNet) (C : String) (a : Bool)
    (h : containsRoute (some P) C = .ok (a, true)) : InsideNotSameText P C := by
  unfold containsRoute at h
  simp only at h
  split at h
  · exact absurd h (by simp)
  · rename_i cidr hparse
    split at h
    · simp at h
    · rename_i hne
      split at h
      · simp at h
      · rename_i hb
        simp only [Bool.or_eq_true, Bool.not_eq_true', not_or, Bool.not_eq_false] at hb
        refine ⟨cidr, hparse, hne, range_sub_of_endpoints P cidr C hparse hb.1 hb.2, ?_⟩
        rintro hcanon hP4 ⟨T, hT⟩
        exact proper_of_canonical P cidr T C hT hP4 hparse hcanon hne hb.1 hb.2

/-! ## Lemmas: printing an IPv4 network and parsing it back -/

theorem isDigit_digitChar (d : Nat) (hd : d < 10) :
    isDigit (digitChar d) = true ∧ (digitChar d).toNat - '0'.toNat = d ∧
    digitChar d ≠ '.' ∧ digitChar d ≠ ':' ∧ digitChar d ≠ '%' ∧ digitChar d ≠ '/' := by
  interval_cases d <;> decide

theorem parseIPv4Loop_digit (d : Nat) (hd : d < 10) (rest : List Char) (prev : Option Char)
    (fields : List Nat) (val pos digLen : Nat) (h0 : ¬(digLen = 1 ∧ val = 0))
    (hv : val * 10 + d ≤ 255) :
    parseIPv4Loop (digitChar d :: rest) prev fields val pos digLen =
      parseIPv4Loop rest (some (digitChar d)) fields (val * 10 + d) pos (digLen + 1) := by
  obtain ⟨h1, h2, -⟩ := isDigit_digitChar d hd
  rw [parseIPv4Loop]
  simp only [h1, if_true, h2, if_neg h0]
  rw [if_neg (by omega)]

theorem parseIPv4Loop_dot (d : Nat) (hd : d < 10) (c : Char) (rest : List Char)
    (fields : List Nat) (val pos digLen : Nat) (hp : pos < 3) :
    parseIPv4Loop ('.' :: c :: rest) (some (digitChar d)) fields val pos digLen =
      parseIPv4Loop (c :: rest) (some '.') (fields ++ [val]) 0 (pos + 1) 0 := by
  obtain ⟨-, -, h3, -⟩ := isDigit_digitChar d hd
  rw [parseIPv4Loop]
  have hnd : isDigit '.' = false := by decide
  simp only [hnd, Bool.false_eq_true, if_false, if_true]
  rw [if_neg (by simp [h3]), if_neg (by omega)]

theorem parseIPv4Loop_decimal (x : Nat) (hx : x < 256) (rest : List Char) (prev : Option Char)
    (fields : List Nat) (pos : Nat) :
    ∃ k, parseIPv4Loop (appendDecimal x ++ rest) prev fields 0 pos 0 =
      parseIPv4Loop rest (some (digitChar (x % 10))) fields x pos k := by
  unfold appendDecimal
  by_cases h100 : x ≥ 100
  · have h10 : x ≥ 10 := by omega
    simp only [h100, h10, if_true, List.append_assoc, List.singleton_append, List.nil_append, List.cons_append]
    refine ⟨3, ?_⟩
    rw [parseIPv4Loop_digit (x / 100) (by omega) _ _ _ _ _ _ (by omega) (by omega),
      parseIPv4Loop_digit (x / 10 % 10) (by omega) _ _ _ _ _ _ (by omega) (by omega),
      parseIPv4Loop_digit (x % 10) (by omega) _ _ _ _ _ _ (by omega) (by omega)]
    congr 1
    omega
  · by_cases h10 : x ≥ 10
    · simp only [h100, h10, if_true, if_false, List.append_assoc, List.singleton_append,
        List.nil_append, List.cons_append]
      refine ⟨2, ?_⟩
      rw [parseIPv4Loop_digit (x / 10 % 10) (by omega) _ _ _ _ _ _ (by omega) (by omega),
        parseIPv4Loop_digit (x % 10) (by omega) _ _ _ _ _ _ (by omega) (by omega)]
      congr 1
      omega
    · simp only [h100, h10, if_false, List.append_assoc, List.singleton_append,
        List.nil_append, List.cons_append]
      refine ⟨1, ?_⟩
      rw [parseIPv4Loop_digit (x % 10) (by omega) _ _ _ _ _ _ (by omega) (by omega)]
      congr 1
      omega

theorem appendDecimal_cons (x : Nat) :
    ∃ c cs, appendDecimal x = c :: cs := by
  unfold appendDecimal
  by_cases h100 : x ≥ 100 <;> by_cases h10 : x ≥ 10 <;> simp [h100, h10]

theorem parseIPv4_string4 (a b c d : Nat) (ha : a < 256) (hb : b < 256) (hc : c < 256)
    (hd : d < 256) : parseIPv4 (string4 [a, b, c, d]) = some [a, b, c, d] := by
  unfold parseIPv4 string4
  simp only [List.getD_cons_zero, List.getD_cons_succ, List.append_assoc, List.singleton_append,
    List.cons_append, List.nil_append]
  obtain ⟨cb, csb, hB⟩ := appendDecimal_cons b
  obtain ⟨cc, csc, hC⟩ := appendDecimal_cons c
  obtain ⟨cd, csd, hD⟩ := appendDecimal_cons d
  obtain ⟨k1, e1⟩ := parseIPv4Loop_decimal a ha
    ('.' :: (appendDecimal b ++ '.' :: (appendDecimal c ++ '.' :: appendDecimal d))) none [] 0
  rw [e1]
  have s1 : ('.' :: (appendDecimal b ++ '.' :: (appendDecimal c ++ '.' :: appendDecimal d)))
      = '.' :: cb :: (csb ++ '.' :: (appendDecimal c ++ '.' :: appendDecimal d)) := by
    rw [hB]; rfl
  rw [s1, parseIPv4Loop_dot (a % 10) (by omega) _ _ _ _ _ _ (by omega)]
  have s1b : cb :: (csb ++ '.' :: (appendDecimal c ++ '.' :: appendDecimal d))
      = appendDecimal b ++ '.' :: (appendDecimal c ++ '.' :: appendDecimal d) := by
    rw [hB]; rfl
  rw [s1b]
  obtain ⟨k2, e2⟩ := parseIPv4Loop_decimal b hb
    ('.' :: (appendDecimal c ++ '.' :: appendDecimal d)) (some '.') ([] ++ [a]) (0 + 1)
  rw [e2]
  have s2 : ('.' :: (appendDecimal c ++ '.' :: appendDecimal d))
      = '.' :: cc :: (csc ++ '.' :: appendDecimal d) := by
    rw [hC]; rfl
  rw [s2, parseIPv4Loop_dot (b % 10) (by omega) _ _ _ _ _ _ (by omega)]
  have s2b : cc :: (csc ++ '.' :: appendDecimal d) = appendDecimal c ++ '.' :: appendDecimal d := by
    rw [hC]; rfl
  rw [s2b]
  obtain ⟨k3, e3⟩ := parseIPv4Loop_decimal c hc
    ('.' :: appendDecimal d) (some '.') ([] ++ [a] ++ [b]) (0 + 1 + 1)
  rw [e3]
  have s3 : ('.' :: appendDecimal d) = '.' :: cd :: csd := by rw [hD]
  rw [s3, parseIPv4Loop_dot (c % 10) (by omega) _ _ _ _ _ _ (by omega)]
  have s3b : cd :: csd = appendDecimal d ++ [] := by rw [hD]; simp
  rw [s3b]
  obtain ⟨k4, e4⟩ := parseIPv4Loop_decimal d hd [] (some '.') ([] ++ [a] ++ [b] ++ [c]) (0 + 1 + 1 + 1)
  rw [e4]
  simp [parseIPv4Loop]

theorem appendDecimal_digits (x : Nat) (hx : x < 256) (c : Char) (hc : c ∈ appendDecimal x) :
    ∃ d, d < 10 ∧ c = digitChar d := by
  unfold appendDecimal at hc
  simp only [List.mem_append, List.mem_singleton] at hc
  rcases hc with (hc | hc) | hc
  · split at hc
    · exact ⟨x / 100, by omega, by simpa using hc⟩
    · simp at hc
  · split at hc
    · exact ⟨x / 10 % 10, by omega, by simpa using hc⟩
    · simp at hc
  · exact ⟨x % 10, by omega, hc⟩

theorem parseAddrScan_digits (whole rest : List Char) : ∀ (ds : List Char),
    (∀ c ∈ ds, ∃ d, d < 10 ∧ c = digitChar d) →
    parseAddrScan whole (ds ++ '.' :: rest) = (parseIPv4 whole).map Addr.v4 := by
  intro ds
  induction ds with
  | nil => intro _; simp [parseAddrScan]
  | cons c cs ih =>
    intro h
    obtain ⟨d, hd, rfl⟩ := h c (by simp)
    obtain ⟨-, -, h1, h2, h3, -⟩ := isDigit_digitChar d hd
    rw [List.cons_append, parseAddrScan, if_neg h1, if_neg h2, if_neg h3]
    exact ih (fun c hc => h c (by simp [hc]))

theorem string4_chars (a b c d : Nat) (ha : a < 256) (hb : b < 256) (hc : c < 256)
    (hd : d < 256) : ∀ ch ∈ string4 [a, b, c, d], ch ≠ '/' := by
  intro ch hch
  unfold string4 at hch
  simp only [List.getD_cons_zero, List.getD_cons_succ, List.mem_append, List.mem_singleton] at hch
  have key : ∀ x, x < 256 → ch ∈ appendDecimal x → ch ≠ '/' := by
    intro x hx hm
    obtain ⟨d, hd, rfl⟩ := appendDecimal_digits x hx ch hm
    exact (isDigit_digitChar d hd).2.2.2.2.2
  have hdot : ch = '.' → ch ≠ '/' := by
    intro h; rw [h]; decide
  rcases hch with (((((h | h) | h) | h) | h) | h) | h
  · exact key a ha h
  · exact hdot h
  · exact key b hb h
  · exact hdot h
  · exact key c hc h
  · exact hdot h
  · exact key d hd h

theorem ParseAddr_string4 (a b c d : Nat) (ha : a < 256) (hb : b < 256) (hc : c < 256)
    (hd : d < 256) : ParseAddr (string4 [a, b, c, d]) = some (Addr.v4 [a, b, c, d]) := by
  unfold ParseAddr
  have h := parseAddrScan_digits (string4 [a, b, c, d])
    (appendDecimal b ++ ['.'] ++ appendDecimal c ++ ['.'] ++ appendDecimal d)
    (appendDecimal a) (appendDecimal_digits a ha)
  have e : string4 [a, b, c, d] = appendDecimal a ++ '.' ::
      (appendDecimal b ++ ['.'] ++ appendDecimal c ++ ['.'] ++ appendDecimal d) := by
    simp [string4]
  rw [parseIPv4_string4 a b c d ha hb hc hd] at h
  conv_lhs => arg 2; rw [e]
  rw [h]
  rfl

theorem dtoi_uitoa (n : Nat) (hn : n ≤ 32) :
    dtoi (uitoa n) = (n, (uitoa n).length, true) ∧ ∀ ch ∈ uitoa n, ch ≠ '/' := by
  interval_cases n <;> decide

theorem simpleMaskLength_CIDRMask (n : Nat) (hn : n ≤ 32) :
    simpleMaskLength (CIDRMask n 32) = some n ∧ (CIDRMask n 32).length = 4 := by
  interval_cases n <;> decide

/-- The text of an IPv4 network is its dotted address, a slash and the length
of its mask. -/
theorem IPv4Net_String (a b c d n : Nat) (hn : n ≤ 32) :
    (IPNet.mk [a, b, c, d] (CIDRMask n 32)).String =
      String.mk (string4 [a, b, c, d] ++ ['/'] ++ uitoa n) := by
  obtain ⟨h1, h2⟩ := simpleMaskLength_CIDRMask n hn
  have hnorm : networkNumberAndMask (IPNet.mk [a, b, c, d] (CIDRMask n 32)) =
      some ([a, b, c, d], CIDRMask n 32) := by
    simp [networkNumberAndMask, To4, h2, IPv4len]
  unfold IPNet.String
  rw [hnorm]
  simp only [h1, h2]
  simp [ipString, To4, IPv4len, IPv6len]

theorem parseCIDRChars_join (addr mask : List Char) (a : Addr) (n : Nat)
    (hs : ∀ ch ∈ addr, ch ≠ '/') (ha : ParseAddr addr = some a) (hz : a.Zone = [])
    (hd : dtoi mask = (n, mask.length, true)) (hn : n ≤ a.BitLen) :
    parseCIDRChars (addr ++ ['/'] ++ mask) =
      some { IP := ipMask a.As16 (CIDRMask n a.BitLen), Mask := CIDRMask n a.BitLen } := by
  have hp : ∀ ch ∈ addr, (fun c => c != '/') ch = true := by
    intro ch hch
    simpa using hs ch hch
  have htake : List.takeWhile (fun c => c != '/') (addr ++ ['/'] ++ mask) = addr := by
    rw [List.append_assoc, List.takeWhile_append_of_pos hp]
    simp
  have hdrop : List.drop 1 (List.dropWhile (fun c => c != '/') (addr ++ ['/'] ++ mask)) = mask := by
    rw [List.append_assoc, List.dropWhile_append_of_pos hp]
    simp
  have hcont : (addr ++ ['/'] ++ mask).contains '/' = true := by
    simp
  unfold parseCIDRChars
  rw [if_pos hcont]
  simp only [htake, hdrop, ha, hd, hz]
  simp
  omega

theorem ParseCIDR_IPv4Net (a b c d n : Nat) (ha : a < 256) (hb : b < 256) (hc : c < 256)
    (hd : d < 256) (hn : n ≤ 32) :
    ∃ cidr, ParseCIDR (String.mk (string4 [a, b, c, d] ++ ['/'] ++ uitoa n)) = some cidr :=
  ⟨_, parseCIDRChars_join (string4 [a, b, c, d]) (uitoa n) (Addr.v4 [a, b, c, d]) n
    (string4_chars a b c d ha hb hc hd) (ParseAddr_string4 a b c d ha hb hc hd) rfl
    (dtoi_uitoa n hn).1 hn⟩

/-! ## Lemmas: printing an IPv6 network and parsing it back -/

theorem zeroRunEnd_bounds (ip : List Nat) : ∀ (fuel j : Nat),
    j ≤ zeroRunEnd ip fuel j ∧ (j ≤ 8 → zeroRunEnd ip fuel j ≤ 8) := by
  intro fuel
  induction fuel with
  | zero => intro j; simp [zeroRunEnd]
  | succ fuel ih =>
    intro j
    rw [zeroRunEnd]
    split
    · rename_i h
      have := ih (j + 1)
      exact ⟨by omega, fun _ => this.2 (by omega)⟩
    · exact ⟨le_refl _, fun h => h⟩

theorem zeroRun_good (ip : List Nat) : ∀ (is : List Nat) (z : Nat × Nat),
    (∀ i ∈ is, i < 8) → GoodRun z → GoodRun (zeroRun ip is z) := by
  intro is
  induction is with
  | nil => intro z _ hz; simpa [zeroRun] using hz
  | cons i is ih =>
    intro z his hz
    rw [zeroRun]
    split
    · rename_i h
      refine ih _ (fun k hk => his k (by simp [hk])) (Or.inr ?_)
      have hb := zeroRunEnd_bounds ip 8 i
      have hi := his i (by simp)
      exact ⟨by omega, hb.2 (by omega)⟩
    · exact ih _ (fun k hk => his k (by simp [hk])) hz

theorem string6_run_good (ip : List Nat) : GoodRun (zeroRun ip (List.range 8) (255, 255)) :=
  zeroRun_good ip _ _ (fun i hi => by simpa using hi) (Or.inl rfl)

theorem hexVal_digitChar (d : Nat) (hd : d < 16) :
    hexVal (digitChar d) = some d ∧ digitChar d ≠ ':' ∧ digitChar d ≠ '.' ∧
    digitChar d ≠ '%' ∧ digitChar d ≠ '/' := by
  interval_cases d <;> decide

theorem hexVal_colon : hexVal ':' = none := by decide

theorem hexGroup_digits : ∀ (ds : List Char) (rest : List Char) (off acc : Nat),
    (∀ c ∈ ds, ∃ d, d < 16 ∧ c = digitChar d) → off + ds.length ≤ 4 → acc < 16 ^ off →
    (rest = [] ∨ ∃ r, rest = ':' :: r) →
    ∃ acc1, hexGroup (ds ++ rest) off acc = some (off + ds.length, acc1, rest) := by
  intro ds
  induction ds with
  | nil =>
    intro rest off acc _ _ _ hrest
    rcases hrest with rfl | ⟨r, rfl⟩
    · exact ⟨acc, by simp [hexGroup]⟩
    · exact ⟨acc, by simp [hexGroup, hexVal_colon]⟩
  | cons c cs ih =>
    intro rest off acc hds hlen hacc hrest
    obtain ⟨d, hd, rfl⟩ := hds c (by simp)
    simp only [List.length_cons] at hlen
    have hacc1 : acc * 16 + d < 16 ^ (off + 1) := by
      rw [pow_succ]
      omega
    have hle : acc * 16 + d ≤ 0xffff := by
      have : 16 ^ (off + 1) ≤ 16 ^ 4 := Nat.pow_le_pow_right (by norm_num) (by omega)
      norm_num at this
      omega
    obtain ⟨acc1, h1⟩ := ih rest (off + 1) (acc * 16 + d) (fun c hc => hds c (by simp [hc]))
      (by omega) hacc1 hrest
    refine ⟨acc1, ?_⟩
    rw [List.cons_append, hexGroup, (hexVal_digitChar d hd).1]
    simp only
    rw [if_neg (by omega), if_neg (by omega), h1]
    congr 2
    simp only [List.length_cons]
    omega

theorem appendHex_digits (x : Nat) (hx : x < 65536) :
    (∀ c ∈ appendHex x, ∃ d, d < 16 ∧ c = digitChar d) ∧ (appendHex x).length ≤ 4 ∧
    ∃ d cs, d < 16 ∧ appendHex x = digitChar d :: cs := by
  have h12 : x >>> 12 < 16 := by
    rw [Nat.shiftRight_eq_div_pow]
    omega
  have hand : ∀ y : Nat, y &&& 0xf < 16 := by
    intro y
    have : y &&& 0xf ≤ 0xf := Nat.and_le_right
    omega
  refine ⟨?_, ?_, ?_⟩
  · intro c hc
    unfold appendHex at hc
    simp only [List.mem_append, List.mem_singleton] at hc
    rcases hc with ((hc | hc) | hc) | hc
    · split at hc
      · exact ⟨_, h12, by simpa using hc⟩
      · simp at hc
    · split at hc
      · exact ⟨_, hand _, by simpa using hc⟩
      · simp at hc
    · split at hc
      · exact ⟨_, hand _, by simpa using hc⟩
      · simp at hc
    · exact ⟨_, hand _, hc⟩
  · unfold appendHex
    simp only [List.length_append, List.length_singleton]
    split <;> split <;> split <;> simp
  · unfold appendHex
    by_cases h1 : x ≥ 0x1000
    · exact ⟨_, _, h12, by simp only [h1, if_true]; rfl⟩
    · by_cases h2 : x ≥ 0x100
      · exact ⟨_, _, hand _, by simp only [h1, h2, if_true, if_false]; rfl⟩
      · by_cases h3 : x ≥ 0x10
        · exact ⟨_, _, hand _, by simp only [h1, h2, h3, if_true, if_false]; rfl⟩
        · exact ⟨_, [], hand _, by simp only [h1, h2, h3, if_false]; rfl⟩

theorem v6u16_lt (ip : List Nat) (h : isBytes ip) (i : Nat) : v6u16 ip i < 65536 := by
  have key : ∀ k, ip.getD k 0 < 256 := by
    intro k
    rw [List.getD_eq_getElem?_getD]
    cases hk : ip[k]? with
    | none => simp
    | some b =>
      simp only [Option.getD_some]
      exact h b (List.getElem?_mem hk)
  unfold v6u16
  have := key (2 * i)
  have := key (2 * i + 1)
  omega

theorem parseIPv6Loop_group (g : Nat) (hg : g < 65536) (rest : List Char)
    (hrest : rest = [] ∨ ∃ r, rest = ':' :: r) (pf : Nat) (acc : List Nat) (ell : Option Nat)
    (hacc : acc.length < 16) :
    ∃ b1 b2, parseIPv6Loop (pf + 1) (appendHex g ++ rest) acc ell =
      match rest with
      | [] => some ([], acc ++ [b1, b2], ell)
      | c :: s1 =>
        if c ≠ ':' then none
        else
          match s1 with
          | [] => none
          | c1 :: s2 =>
            if c1 = ':' then
              if ell ≠ none then none
              else if s2 = [] then some ([], acc ++ [b1, b2], some (acc ++ [b1, b2]).length)
              else parseIPv6Loop pf s2 (acc ++ [b1, b2]) (some (acc ++ [b1, b2]).length)
            else parseIPv6Loop pf s1 (acc ++ [b1, b2]) ell := by
  obtain ⟨hd, hl, d, cs, _, hcons⟩ := appendHex_digits g hg
  obtain ⟨a1, h1⟩ := hexGroup_digits (appendHex g) rest 0 0 hd (by omega) (by norm_num) hrest
  refine ⟨a1 >>> 8, a1 % 256, ?_⟩
  rw [parseIPv6Loop, if_neg (by omega), h1]
  simp only
  have hlen : 0 + (appendHex g).length ≠ 0 := by
    rw [hcons]; simp
  rw [if_neg hlen]
  rcases hrest with rfl | ⟨r, rfl⟩
  · simp
  · simp

theorem runPrinted_after (z : Nat × Nat) : ∀ (f j : Nat), z.1 < j → runPrinted z f j = false := by
  intro f
  induction f with
  | zero => intro j _; rfl
  | succ f ih =>
    intro j hj
    rw [runPrinted]
    split
    · rfl
    · rw [if_neg (by omega)]
      exact ih (j + 1) (by omega)

theorem parseIPv6Loop_printed (ip : List Nat) (hip : isBytes ip) (z : Nat × Nat)
    (hz12 : z.1 ≤ z.2) :
    ∀ (f j pf g : Nat) (acc : List Nat) (ell : Option Nat),
      g < 65536 → 1 ≤ j → acc.length + 2 + 2 * groupsPrinted z f j ≤ 16 →
      groupsPrinted z f j < pf → (runPrinted z f j = true → ell = none) →
      ∃ acc1 ell1, parseIPv6Loop pf (appendHex g ++ appendTo6Loop ip z f j) acc ell =
          some ([], acc1, ell1) ∧
        acc1.length = acc.length + 2 + 2 * groupsPrinted z f j ∧
        ell1.isSome = (ell.isSome || runPrinted z f j) := by
  intro f
  induction f with
  | zero =>
    intro j pf g acc ell hg _ hlen hpf _
    obtain ⟨pf, rfl⟩ : ∃ k, pf = k + 1 := ⟨pf - 1, by omega⟩
    obtain ⟨b1, b2, h⟩ := parseIPv6Loop_group g hg [] (Or.inl rfl) pf acc ell (by omega)
    simp only [appendTo6Loop, groupsPrinted, runPrinted]
    exact ⟨_, _, h, by simp, by simp⟩
  | succ f ih =>
    intro j pf g acc ell hg hj hlen hpf hell
    obtain ⟨pf, rfl⟩ : ∃ k, pf = k + 1 := ⟨pf - 1, by omega⟩
    rw [groupsPrinted] at hlen hpf
    rw [runPrinted] at hell
    rw [appendTo6Loop, groupsPrinted, runPrinted]
    by_cases h8 : j ≥ 8
    · simp only [h8, if_true] at hlen hpf hell ⊢
      obtain ⟨b1, b2, h⟩ := parseIPv6Loop_group g hg [] (Or.inl rfl) pf acc ell (by omega)
      exact ⟨_, _, h, by simp, by simp⟩
    · simp only [h8, if_false] at hlen hpf hell ⊢
      by_cases hz : j = z.1
      · simp only [hz, if_true] at hlen hpf hell ⊢
        have hnone : ell = none := hell trivial
        subst hnone
        by_cases he : z.2 ≥ 8
        · simp only [he, if_true] at hlen hpf ⊢
          obtain ⟨b1, b2, h⟩ := parseIPv6Loop_group g hg [':', ':'] (Or.inr ⟨_, rfl⟩) pf acc none
            (by omega)
          refine ⟨acc ++ [b1, b2], some (acc ++ [b1, b2]).length, h.trans ?_, ?_, ?_⟩
          · simp
          · simp
          · simp
        · simp only [he, if_false] at hlen hpf ⊢
          obtain ⟨_, _, d, cs, hd, hcons⟩ := appendHex_digits (v6u16 ip z.2) (v6u16_lt ip hip z.2)
          obtain ⟨b1, b2, h⟩ := parseIPv6Loop_group g hg
            ([':', ':'] ++ appendHex (v6u16 ip z.2) ++ appendTo6Loop ip z f (z.2 + 1))
            (Or.inr ⟨_, rfl⟩) pf acc none (by omega)
          obtain ⟨acc1, ell1, h2, hl2, he2⟩ := ih (z.2 + 1) pf (v6u16 ip z.2) (acc ++ [b1, b2])
            (some (acc ++ [b1, b2]).length) (v6u16_lt ip hip z.2) (by omega)
            (by simp only [List.length_append, List.length_cons, List.length_nil]; omega)
            (by omega)
            (fun hr => by rw [runPrinted_after z f (z.2 + 1) (by omega)] at hr; exact absurd hr (by simp))
          refine ⟨acc1, ell1, ?_, ?_, ?_⟩
          · rw [h]
            simp only [List.cons_append, List.nil_append, List.append_assoc, hcons] at h2 ⊢
            simpa using h2
          · rw [hl2]
            simp only [List.length_append, List.length_cons, List.length_nil]
            omega
          · rw [he2]
            simp
      · simp only [hz, if_false] at hlen hpf hell ⊢
        have hj0 : j > 0 := by omega
        simp only [hj0, if_true]
        obtain ⟨_, _, d, cs, hd, hcons⟩ := appendHex_digits (v6u16 ip j) (v6u16_lt ip hip j)
        have hdc := (hexVal_digitChar d hd).2.1
        obtain ⟨b1, b2, h⟩ := parseIPv6Loop_group g hg
          ([':'] ++ appendHex (v6u16 ip j) ++ appendTo6Loop ip z f (j + 1))
          (Or.inr ⟨_, rfl⟩) pf acc ell (by omega)
        obtain ⟨acc1, ell1, h2, hl2, he2⟩ := ih (j + 1) pf (v6u16 ip j) (acc ++ [b1, b2])
          ell (v6u16_lt ip hip j) (by omega)
          (by simp only [List.length_append, List.length_cons, List.length_nil]; omega)
          (by omega) hell
        refine ⟨acc1, ell1, ?_, ?_, ?_⟩
        · rw [h]
          simp only [List.cons_append, List.nil_append, List.append_assoc, hcons] at h2 ⊢
          simpa [hdc] using h2
        · rw [hl2]
          simp only [List.length_append, List.length_cons, List.length_nil]
          omega
        · exact he2

theorem printed_counts_none :
    groupsPrinted (255, 255) 7 1 = 7 ∧ runPrinted (255, 255) 7 1 = false := by decide

theorem printed_counts (s e : Nat) (h1 : s + 2 ≤ e) (h2 : e ≤ 8) :
    (s = 0 → e < 8 → groupsPrinted (s, e) 7 (e + 1) ≤ 5) ∧
    (s ≠ 0 → groupsPrinted (s, e) 7 1 ≤ 5 ∧ runPrinted (s, e) 7 1 = true) := by
  have hs : s ≤ 6 := by omega
  interval_cases s <;> interval_cases e <;> first | omega | decide

theorem appendTo6Loop_chars (ip : List Nat) (hip : isBytes ip) (z : Nat × Nat) :
    ∀ (f i : Nat), ∀ c ∈ appendTo6Loop ip z f i, c = ':' ∨ ∃ d, d < 16 ∧ c = digitChar d := by
  intro f
  induction f with
  | zero => intro i c hc; simp [appendTo6Loop] at hc
  | succ f ih =>
    intro i c hc
    rw [appendTo6Loop] at hc
    have hex : ∀ k, c ∈ appendHex (v6u16 ip k) → c = ':' ∨ ∃ d, d < 16 ∧ c = digitChar d :=
      fun k hk => Or.inr ((appendHex_digits _ (v6u16_lt ip hip k)).1 c hk)
    split at hc
    · simp at hc
    · split at hc
      · split at hc
        · simp only [List.mem_cons, List.mem_singleton, List.not_mem_nil, or_false] at hc
          exact Or.inl (by tauto)
        · simp only [List.mem_append, List.mem_cons, List.not_mem_nil, or_false] at hc
          rcases hc with (hc | hc) | hc
          · exact Or.inl (by tauto)
          · exact hex _ hc
          · exact ih _ c hc
      · simp only [List.mem_append] at hc
        rcases hc with (hc | hc) | hc
        · split at hc
          · simp only [List.mem_singleton] at hc
            exact Or.inl hc
          · simp at hc
        · exact hex _ hc
        · exact ih _ c hc

theorem string6_chars (ip : List Nat) (hip : isBytes ip) :
    ∀ c ∈ string6 ip, c ≠ '%' ∧ c ≠ '/' ∧ c ≠ '.' := by
  intro c hc
  rcases appendTo6Loop_chars ip hip _ 8 0 c hc with rfl | ⟨d, hd, rfl⟩
  · decide
  · have := hexVal_digitChar d hd
    exact ⟨this.2.2.2.1, this.2.2.2.2, this.2.2.1⟩

theorem splitZone_plain (s : List Char) (h : ∀ c ∈ s, c ≠ '%') : splitZone s = some (s, []) := by
  unfold splitZone
  rw [if_neg]
  simp only [List.contains_eq_any_beq, List.any_eq_true, beq_iff_eq, not_exists, not_and]
  intro c hc hcp
  exact h c hc hcp.symm

theorem expandEllipsis_ok (ip1 : List Nat) (ell1 : Option Nat)
    (h : (ip1.length < 16 ∧ ell1.isSome = true) ∨ (ip1.length = 16 ∧ ell1 = none)) :
    ∃ b, expandEllipsis (some ([], ip1, ell1)) = some b := by
  unfold expandEllipsis
  simp only [ne_eq, not_true_eq_false, if_false]
  rcases h with ⟨h1, h2⟩ | ⟨h1, h2⟩
  · rw [if_pos h1]
    cases ell1 with
    | none => simp at h2
    | some e => exact ⟨_, rfl⟩
  · rw [if_neg (by omega), h2]
    exact ⟨ip1, by simp⟩

/-- The IPv6 text that `string6` prints is read again by `parseIPv6`, with no zone. -/
theorem parseIPv6_string6 (ip : List Nat) (hip : isBytes ip) :
    ∃ b, parseIPv6 (string6 ip) = some (b, []) := by
  have hgood := string6_run_good ip
  have hchars := string6_chars ip hip
  unfold parseIPv6
  rw [splitZone_plain _ (fun c hc => (hchars c hc).1)]
  simp only
  unfold string6
  generalize zeroRun ip (List.range 8) (255, 255) = z at hgood
  obtain ⟨zs, ze⟩ := z
  simp only [GoodRun, Prod.mk.injEq] at hgood
  have hz12 : zs ≤ ze := by
    rcases hgood with ⟨rfl, rfl⟩ | h
    · exact le_refl _
    · omega
  rw [appendTo6Loop]
  simp only [ge_iff_le, Nat.reduceLeDiff, if_false, gt_iff_lt, lt_self_iff_false, List.nil_append]
  by_cases h0 : 0 = zs
  · rw [if_pos h0]
    have hge : zs + 2 ≤ ze ∧ ze ≤ 8 := by
      rcases hgood with ⟨rfl, rfl⟩ | h
      · simp at h0
      · exact h
    by_cases he : 8 ≤ ze
    · rw [if_pos he]
      exact ⟨List.replicate 16 0, by simp⟩
    · rw [if_neg he]
      obtain ⟨_, _, d, cs, hd, hcons⟩ := appendHex_digits (v6u16 ip ze) (v6u16_lt ip hip ze)
      have hcnt := (printed_counts zs ze hge.1 hge.2).1 h0.symm (by omega)
      obtain ⟨acc1, ell1, h2, hl2, he2⟩ := parseIPv6Loop_printed ip hip (zs, ze) hz12 7 (ze + 1) 8
        (v6u16 ip ze) [] (some 0) (v6u16_lt ip hip ze) (by omega)
        (by simp only [List.length_nil]; omega) (by omega)
        (fun hr => by rw [runPrinted_after (zs, ze) 7 (ze + 1) (by omega)] at hr; exact absurd hr (by simp))
      obtain ⟨b, hb⟩ := expandEllipsis_ok acc1 ell1 (Or.inl ⟨by
        rw [hl2]; simp only [List.length_nil]; omega, by rw [he2]; simp⟩)
      refine ⟨b, ?_⟩
      have htext : [':', ':'] ++ appendHex (v6u16 ip ze) ++ appendTo6Loop ip (zs, ze) 7 (ze + 1)
          = ':' :: ':' :: (appendHex (v6u16 ip ze) ++ appendTo6Loop ip (zs, ze) 7 (ze + 1)) := by
        simp
      rw [htext]
      simp only [List.take_succ_cons, List.take_zero, List.drop_succ_cons, List.drop_zero, if_true]
      rw [hcons] at h2 ⊢
      rw [if_neg (by simp), h2, hb]
      rfl
  · rw [if_neg h0]
    obtain ⟨_, _, d, cs, hd, hcons⟩ := appendHex_digits (v6u16 ip 0) (v6u16_lt ip hip 0)
    have hdc := (hexVal_digitChar d hd).2.1
    have hcnt : groupsPrinted (zs, ze) 7 1 < 8 ∧
        ((groupsPrinted (zs, ze) 7 1 ≤ 5 ∧ runPrinted (zs, ze) 7 1 = true) ∨
          (groupsPrinted (zs, ze) 7 1 = 7 ∧ runPrinted (zs, ze) 7 1 = false)) := by
      rcases hgood with ⟨rfl, rfl⟩ | h
      · exact ⟨by decide, Or.inr printed_counts_none⟩
      · have := (printed_counts zs ze h.1 h.2).2 (fun h' => h0 h'.symm)
        exact ⟨by omega, Or.inl this⟩
    obtain ⟨acc1, ell1, h2, hl2, he2⟩ := parseIPv6Loop_printed ip hip (zs, ze) hz12 7 1 8
      (v6u16 ip 0) [] none (v6u16_lt ip hip 0) (by omega)
      (by simp only [List.length_nil]; omega) hcnt.1 (fun _ => rfl)
    obtain ⟨b, hb⟩ := expandEllipsis_ok acc1 ell1 (by
      rcases hcnt.2 with ⟨h5, hr⟩ | ⟨h7, hr⟩
      · exact Or.inl ⟨by rw [hl2]; simp only [List.length_nil]; omega, by rw [he2, hr]; simp⟩
      · refine Or.inr ⟨by rw [hl2, h7]; simp, ?_⟩
        rw [hr] at he2
        cases ell1 with
        | none => rfl
        | some e => simp at he2)
    refine ⟨b, ?_⟩
    rw [hcons] at h2 ⊢
    simp only [List.cons_append] at h2 ⊢
    have hntake : ¬ List.take 2 (digitChar d :: (cs ++ appendTo6Loop ip (zs, ze) 7 (0 + 1))) = [':', ':'] := by
      simp [List.take, hdc]
    rw [if_neg hntake]
    simp only [Nat.zero_add] at h2 ⊢
    rw [h2, hb]
    rfl

theorem parseAddrScan_hex (whole rest : List Char) : ∀ (ds : List Char),
    (∀ c ∈ ds, ∃ d, d < 16 ∧ c = digitChar d) →
    parseAddrScan whole (ds ++ ':' :: rest) =
      (parseIPv6 whole).map (fun r => Addr.v6 r.1 r.2) := by
  intro ds
  induction ds with
  | nil => intro _; simp [parseAddrScan]
  | cons c cs ih =>
    intro h
    obtain ⟨d, hd, rfl⟩ := h c (by simp)
    obtain ⟨-, h1, h2, h3, -⟩ := hexVal_digitChar d hd
    rw [List.cons_append, parseAddrScan, if_neg h2, if_neg h1, if_neg h3]
    exact ih (fun c hc => h c (by simp [hc]))

theorem appendTo6Loop_colon (ip : List Nat) (z : Nat × Nat) (f i : Nat) (hi : i < 8)
    (h0 : 0 < i ∨ i = z.1) : ∃ rest, appendTo6Loop ip z (f + 1) i = ':' :: rest := by
  rw [appendTo6Loop, if_neg (by omega)]
  by_cases hz : i = z.1
  · rw [if_pos hz]
    split
    · exact ⟨_, rfl⟩
    · exact ⟨_, rfl⟩
  · rw [if_neg hz]
    have : 0 < i := by
      rcases h0 with h | h
      · exact h
      · exact absurd h hz
    rw [if_pos this]
    exact ⟨_, rfl⟩

theorem string6_shape (ip : List Nat) (hip : isBytes ip) :
    ∃ ds rest, string6 ip = ds ++ ':' :: rest ∧ ∀ c ∈ ds, ∃ d, d < 16 ∧ c = digitChar d := by
  unfold string6
  generalize zeroRun ip (List.range 8) (255, 255) = z
  by_cases h0 : 0 = z.1
  · obtain ⟨rest, hr⟩ := appendTo6Loop_colon ip z 7 0 (by omega) (Or.inr h0)
    exact ⟨[], rest, by rw [hr]; rfl, fun c hc => absurd hc (by simp)⟩
  · obtain ⟨rest, hr⟩ := appendTo6Loop_colon ip z 6 1 (by omega) (Or.inl (by omega))
    refine ⟨appendHex (v6u16 ip 0), rest, ?_, (appendHex_digits _ (v6u16_lt ip hip 0)).1⟩
    rw [appendTo6Loop, if_neg (by omega), if_neg h0, if_neg (by omega)]
    simp only [List.nil_append, Nat.zero_add]
    rw [hr]

theorem ParseAddr_string6 (ip : List Nat) (hip : isBytes ip) :
    ∃ b, ParseAddr (string6 ip) = some (Addr.v6 b []) := by
  obtain ⟨b, hb⟩ := parseIPv6_string6 ip hip
  obtain ⟨ds, rest, hs, hds⟩ := string6_shape ip hip
  refine ⟨b, ?_⟩
  unfold ParseAddr
  have := parseAddrScan_hex (string6 ip) rest ds hds
  rw [← hs, hb] at this
  exact this

theorem dtoi_uitoa128 (n : Nat) (hn : n ≤ 128) :
    dtoi (uitoa n) = (n, (uitoa n).length, true) := by
  interval_cases n <;> decide

theorem simpleMaskLength_v6 (n : Nat) (hn : n ≤ 128) :
    simpleMaskLength (cidrMaskLoop 16 n) = some n ∧
    ((cidrMaskLoop 16 n).getD 11 0 ≥ 255 →
      96 ≤ n ∧ (cidrMaskLoop 16 n).drop 12 = CIDRMask (n - 96) 32) := by
  interval_cases n <;> decide

theorem IPv4Net_parses (P : IPNet) (hP : IsIPv4Net P) :
    ∃ cidr, ParseCIDR P.String = some cidr := by
  obtain ⟨hlen, hbytes, n, hn, hmask⟩ := hP
  obtain ⟨ip, mask⟩ := P
  simp only at hlen hbytes hmask
  subst hmask
  match ip, hlen with
  | [a, b, c, d], _ =>
    have ha : a < 256 := hbytes a (by simp)
    have hb : b < 256 := hbytes b (by simp)
    have hc : c < 256 := hbytes c (by simp)
    have hd : d < 256 := hbytes d (by simp)
    rw [IPv4Net_String a b c d n hn]
    exact ParseCIDR_IPv4Net a b c d n ha hb hc hd hn

theorem v6Net_parses (P : IPNet) (n : Nat) (hn : n ≤ 128) (hI : P.IP.length = 16)
    (hbytes : isBytes P.IP) (hM : P.Mask = cidrMaskLoop 16 n) (h4 : To4 P.IP = none) :
    ∃ cidr, ParseCIDR P.String = some cidr := by
  have hml : P.Mask.length = 16 := by rw [hM, cidrMaskLoop_length]
  have hnorm : networkNumberAndMask P = some (P.IP, P.Mask) := by
    simp [networkNumberAndMask, h4, hml, hI, IPv4len, IPv6len]
  have hs : P.String = String.mk (string6 P.IP ++ ['/'] ++ uitoa n) := by
    unfold IPNet.String
    rw [hnorm]
    simp only [hml, hI]
    rw [hM, (simpleMaskLength_v6 n hn).1]
    simp [ipString, h4, hI, IPv4len, IPv6len]
  obtain ⟨b, hb⟩ := ParseAddr_string6 P.IP hbytes
  rw [hs]
  exact ⟨_, parseCIDRChars_join (string6 P.IP) (uitoa n) (Addr.v6 b []) n
    (fun ch hch => (string6_chars P.IP hbytes ch hch).2.1) hb rfl (dtoi_uitoa128 n hn) hn⟩

theorem v4mappedNet_parses (P : IPNet) (n : Nat) (hn : n ≤ 128) (hI : P.IP.length = 16)
    (hbytes : isBytes P.IP) (hM : P.Mask = cidrMaskLoop 16 n)
    (hmasked : List.Forall₂ (fun a m => a &&& m = a) P.IP P.Mask)
    (v : List Nat) (h4 : To4 P.IP = some v) :
    ∃ cidr, ParseCIDR P.String = some cidr := by
  have hml : P.Mask.length = 16 := by rw [hM, cidrMaskLoop_length]
  have hv := To4_of_len16 _ _ hI h4
  subst hv
  have h11 : P.IP.getD 11 0 = 255 := by
    unfold To4 at h4
    rw [if_neg (by simp [hI, IPv4len])] at h4
    split at h4
    · rename_i hc
      exact hc.2.2.2
    · exact absurd h4 (by simp)
  have hm11 : (cidrMaskLoop 16 n).getD 11 0 ≥ 255 := by
    rw [← hM]
    have hr := hmasked.get (i := 11) (by omega) (by omega)
    simp only [List.get_eq_getElem] at hr
    have e1 : P.IP.getD 11 0 = P.IP[11] := by
      rw [List.getD_eq_getElem?_getD, List.getElem?_eq_getElem (by omega)]
      rfl
    have e2 : P.Mask.getD 11 0 = P.Mask[11] := by
      rw [List.getD_eq_getElem?_getD, List.getElem?_eq_getElem (by omega)]
      rfl
    rw [e2]
    rw [e1] at h11
    rw [h11] at hr
    have : 255 &&& P.Mask[11] ≤ P.Mask[11] := Nat.and_le_right
    omega
  obtain ⟨h96, hdrop⟩ := (simpleMaskLength_v6 n hn).2 hm11
  have hnorm : networkNumberAndMask P = some (P.IP.drop 12, CIDRMask (n - 96) 32) := by
    rw [← hdrop, ← hM]
    simp [networkNumberAndMask, h4, hml, hI, IPv4len, IPv6len]
  have hP4 : IsIPv4Net (IPNet.mk (P.IP.drop 12) (CIDRMask (n - 96) 32)) :=
    ⟨by simp [hI], isBytes_drop _ _ hbytes, n - 96, by omega, rfl⟩
  have hnorm4 : networkNumberAndMask (IPNet.mk (P.IP.drop 12) (CIDRMask (n - 96) 32)) =
      some (P.IP.drop 12, CIDRMask (n - 96) 32) := by
    have hl : (CIDRMask (n - 96) 32).length = 4 :=
      (simpleMaskLength_CIDRMask (n - 96) (by omega)).2
    simp [networkNumberAndMask, To4, hI, hl, IPv4len]
  rw [String_of_norm P _ (hnorm.trans hnorm4.symm)]
  exact IPv4Net_parses _ hP4

/-- The text of a scope network parses again. -/
theorem ScopeNet_parses (P : IPNet) (hP : IsScopeNet P) :
    ∃ cidr, ParseCIDR P.String = some cidr := by
  rcases hP with h4 | ⟨T, hT⟩
  · exact IPv4Net_parses P h4
  · obtain ⟨l, n, b, hl, hn, hb, hM, hI⟩ := ParseCIDR_shape T P hT
    have hbytes : isBytes P.IP := by
      rw [hI]; exact zipWith_and_bytes _ _ (cidrMaskLoop_bytes _ _)
    have hil : P.IP.length = l := by rw [hI]; simp [cidrMaskLoop_length, hb]
    rcases hl with rfl | rfl
    · refine IPv4Net_parses P ⟨hil, hbytes, n, by omega, ?_⟩
      rw [hM]
      exact (cidr_v4_shape b n hb (by omega)).1.symm
    · have hmasked : List.Forall₂ (fun a m => a &&& m = a) P.IP P.Mask := by
        rw [hI, hM]
        exact zipWith_and_masked _ _ (by rw [hb, cidrMaskLoop_length])
      cases h4 : To4 P.IP with
      | none => exact v6Net_parses P n (by omega) hil hbytes hM h4
      | some v => exact v4mappedNet_parses P n (by omega) hil hbytes hM hmasked v h4

/-! ## Results on containsRoute -/

/-- C1: for a present scope P and a candidate C that parses (to `cidr`) and is not P's
own text, containsRoute returns no error and the pair (b, b), where b says that P
contains the first address of the candidate network and its last address (the
network address OR-ed with the inverted mask).  When b holds every address of the
candidate lies in P, so a candidate with an address outside P (wholly outside,
partly overlapping, or wider than P) gives (false, false); and an IPv4 candidate all
of whose addresses lie in P gives (true, true). -/
theorem containsRoute_present_scope (P cidr : IPNet) (C : String)
    (hparse : ParseCIDR C = some cidr) (hne : P.String ≠ C) :
    containsRoute (some P) C =
        .ok (P.Contains cidr.IP && P.Contains (lastIP cidr),
          P.Contains cidr.IP && P.Contains (lastIP cidr)) ∧
      (containsRoute (some P) C = .ok (true, true) →
        ∀ ip, isBytes ip → cidr.Contains ip = true → P.Contains ip = true) ∧
      ((∃ ip, isBytes ip ∧ cidr.Contains ip = true ∧ P.Contains ip = false) →
        containsRoute (some P) C = .ok (false, false)) ∧
      (cidr.IP.length = 4 →
        (∀ ip, isBytes ip → cidr.Contains ip = true → P.Contains ip = true) →
        containsRoute (some P) C = .ok (true, true)) := by
  have hres : containsRoute (some P) C =
      .ok (P.Contains cidr.IP && P.Contains (lastIP cidr),
        P.Contains cidr.IP && P.Contains (lastIP cidr)) := by
    simp only [containsRoute, hparse, if_neg hne]
    cases h1 : P.Contains cidr.IP <;> cases h2 : P.Contains (lastIP cidr) <;> simp
  have hsub : (P.Contains cidr.IP && P.Contains (lastIP cidr)) = true →
      ∀ ip, isBytes ip → cidr.Contains ip = true → P.Contains ip = true := by
    intro hb
    rw [Bool.and_eq_true] at hb
    exact range_sub_of_endpoints P cidr C hparse hb.1 hb.2
  refine ⟨hres, ?_, ?_, ?_⟩
  · intro h
    rw [hres] at h
    simp only [Except.ok.injEq, Prod.mk.injEq] at h
    exact hsub h.1
  · rintro ⟨ip, hip, hc, hp⟩
    rw [hres]
    cases hb : (P.Contains cidr.IP && P.Contains (lastIP cidr))
    · rfl
    · have := hsub hb ip hip hc
      rw [hp] at this
      exact absurd this (by simp)
  · intro h4 hall
    rw [hres]
    obtain ⟨hf, hl⟩ := parsed_endpoints cidr C hparse h4
    rw [hall _ hf.1 hf.2, hall _ hl.1 hl.2]
    rfl

/-- C1 witness: scope 10.0.0.0/8 and candidate 10.1.0.0/24, which lies inside it. -/
theorem containsRoute_present_scope_witness :
    ParseCIDR "10.1.0.0/24" = some net10_1 ∧ net10.String ≠ "10.1.0.0/24" ∧
    containsRoute (some net10) "10.1.0.0/24" = .ok (true, true) :=
  ⟨by decide, by decide,
    (containsRoute_present_scope net10 net10_1 "10.1.0.0/24" (by decide) (by decide)).1.trans
      rfl⟩

/-- C2: for every scope network P (any network that net.ParseCIDR builds, IPv4 or
IPv6, and any IPv4 network), containsRoute with the candidate equal to P's own text
returns (true, false) and no error: a self-match is in scope and not strict. -/
theorem containsRoute_self (P : IPNet) (hP : IsScopeNet P) :
    containsRoute (some P) P.String = .ok (true, false) := by
  obtain ⟨cidr, hcidr⟩ := ScopeNet_parses P hP
  simp [containsRoute, hcidr]

/-- C2 witness: the IPv4 network 10.1.0.0/24 and the IPv6 network 2001:db8::/32,
each against its own text. -/
theorem containsRoute_self_witness :
    (IsScopeNet net10_1 ∧ net10_1.String = "10.1.0.0/24" ∧
      containsRoute (some net10_1) net10_1.String = .ok (true, false)) ∧
    (IsScopeNet net2001 ∧ net2001.String = "2001:db8::/32" ∧
      containsRoute (some net2001) net2001.String = .ok (true, false)) :=
  ⟨⟨Or.inr ⟨"10.1.0.0/24", by decide⟩, by decide,
      containsRoute_self net10_1 (Or.inr ⟨"10.1.0.0/24", by decide⟩)⟩,
    ⟨Or.inr ⟨"2001:db8::/32", by decide⟩, by decide,
      containsRoute_self net2001 (Or.inr ⟨"2001:db8::/32", by decide⟩)⟩⟩

/-- C3: with an absent (nil) scope, containsRoute returns (true, true) and no
error for every candidate string. -/
theorem containsRoute_nil_scope (C : String) : containsRoute none C = .ok (true, true) := rfl

/-- C4, as the code has it: for a PRESENT scope, a candidate that does not parse as a
CIDR gives the parse error of manager.go 209, and never a normal result. -/
theorem containsRoute_unparsable_present (P : IPNet) (C : String) (h : ParseCIDR C = none) :
    containsRoute (some P) C = .error (unparsable C) := by
  simp [containsRoute, h]

/-- C4 witness: the scope 10.0.0.0/8 with the candidate text `not-a-cidr`. -/
theorem containsRoute_unparsable_present_witness :
    ParseCIDR "not-a-cidr" = none ∧
    containsRoute (some net10) "not-a-cidr" = .error (unparsable "not-a-cidr") :=
  ⟨by decide, containsRoute_unparsable_present net10 "not-a-cidr" (by decide)⟩

/-- C4 counterexample: the text `not-a-cidr` does not parse, and with an absent scope
containsRoute returns the normal result (true, true), not a parse error. -/
theorem containsRoute_unparsable_nil_scope :
    ParseCIDR "not-a-cidr" = none ∧ containsRoute none "not-a-cidr" = .ok (true, true) :=
  ⟨by decide, rfl⟩

/-! ## Results on conflictWithNodes -/

theorem conflictWithNodes_cases {Node : Type}
    (get : Node → Except String (Option IPNet × String)) (route : String) :
    ∀ (nodes : List Node), conflictWithNodes get route nodes = true ↔
      ∃ node ∈ nodes, ∃ P s a, get node = .ok (some P, s) ∧
        containsRoute (some P) route = .ok (a, true) := by
  intro nodes
  induction nodes with
  | nil => simp [conflictWithNodes]
  | cons node rest ih =>
    rw [conflictWithNodes]
    cases hg : get node with
    | error e =>
      simp only [ih, List.mem_cons, exists_eq_or_imp, hg]
      simp
    | ok r =>
      obtain ⟨Q, s⟩ := r
      cases Q with
      | none =>
        simp only [ih, List.mem_cons, exists_eq_or_imp, hg]
        simp
      | some P =>
        simp only
        cases hc : containsRoute (some P) route with
        | error e =>
          simp only [ih, List.mem_cons, exists_eq_or_imp, hg]
          simp [hc]
        | ok r =>
          obtain ⟨a, b⟩ := r
          cases b with
          | true =>
            simp only [if_true, List.mem_cons, exists_eq_or_imp, hg, true_iff]
            exact Or.inl ⟨P, s, a, rfl, hc⟩
          | false =>
            simp only [Bool.false_eq_true, if_false, ih, List.mem_cons, exists_eq_or_imp, hg]
            simp [hc]

/-- C5: conflictWithNodes is true exactly when some node has a pod CIDR that was
obtained without error, is not nil, and for which containsRoute on the destination
returns without error with its strict (second) result true.  So it is false for
the empty node list, and a node whose pod CIDR is unreadable or missing does not
make a conflict. -/
theorem conflictWithNodes_iff {Node : Type}
    (get : Node → Except String (Option IPNet × String)) (route : String) (nodes : List Node) :
    (conflictWithNodes get route nodes = true ↔
      ∃ node ∈ nodes, ∃ P s a, get node = .ok (some P, s) ∧
        containsRoute (some P) route = .ok (a, true)) ∧
    conflictWithNodes get route [] = false ∧
    (∀ node, (∀ P s, get node ≠ .ok (some P, s)) →
      conflictWithNodes get route (node :: nodes) = conflictWithNodes get route nodes) := by
  refine ⟨conflictWithNodes_cases get route nodes, rfl, ?_⟩
  intro node hnode
  rw [conflictWithNodes]
  cases hg : get node with
  | error e => rfl
  | ok r =>
    obtain ⟨Q, s⟩ := r
    cases Q with
    | none => rfl
    | some P => exact absurd hg (hnode P s)

/-- C6, as the code has it: when containsRoute with a present network P returns
strict = true for a destination text, and so for the node behind every conflict that
conflictWithNodes reports, the destination parses to a network all of whose
addresses lie in P, and the destination is not the text of P.  When the destination
is the text its own network prints and P is a parsed IPv4 network, P has an address
outside the destination: a proper sub-range.  (A destination that writes the
network of P in another way is reported strict as well.) -/
theorem strict_is_inside (P : IPNet) (C : String) (a : Bool) {Node : Type}
    (get : Node → Except String (Option IPNet × String)) (nodes : List Node) :
    (containsRoute (some P) C = .ok (a, true) → InsideNotSameText P C) ∧
    (conflictWithNodes get C nodes = true →
      ∃ node ∈ nodes, ∃ Q s, get node = .ok (some Q, s) ∧ InsideNotSameText Q C) := by
  refine ⟨strict_inside P C a, ?_⟩
  intro h
  obtain ⟨node, hmem, Q, s, b, hg, hc⟩ := (conflictWithNodes_cases get C nodes).mp h
  exact ⟨node, hmem, Q, s, hg, strict_inside Q C b hc⟩

/-- C6 witness: the pod network 10.1.0.0/24 and the destination 10.1.0.128/25. -/
theorem strict_is_inside_witness :
    containsRoute (some net10_1) "10.1.0.128/25" = .ok (true, true) ∧
    conflictWithNodes podOf "10.1.0.128/25" ["10.2.0.0/24", "10.1.0.0/24"] = true ∧
    InsideNotSameText net10_1 "10.1.0.128/25" ∧
    ∃ node ∈ ["10.2.0.0/24", "10.1.0.0/24"], ∃ Q s, podOf node = .ok (some Q, s) ∧
      InsideNotSameText Q "10.1.0.128/25" :=
  ⟨rfl, by decide,
    (strict_is_inside net10_1 "10.1.0.128/25" true podOf ["10.2.0.0/24", "10.1.0.0/24"]).1 rfl,
    (strict_is_inside net10_1 "10.1.0.128/25" true podOf ["10.2.0.0/24", "10.1.0.0/24"]).2
      (by decide)⟩

/-- C6 counterexample: the destination text 10.1.0.5/24 parses to the network
10.1.0.0/24 itself, the pod network of the node; containsRoute reports strict = true
and conflictWithNodes reports a conflict, although the destination is the same
network and no proper sub-range. -/
theorem strict_same_network :
    ParseCIDR "10.1.0.5/24" = some net10_1 ∧
    podOf "10.1.0.0/24" = .ok (some net10_1, "10.1.0.0/24") ∧
    containsRoute (some net10_1) "10.1.0.5/24" = .ok (true, true) ∧
    conflictWithNodes podOf "10.1.0.5/24" ["10.1.0.0/24"] = true :=
  ⟨by decide, rfl, rfl, by decide⟩

/-! ## Results on getRouteTables -/

theorem splitChars_join (sep : Char) : ∀ (cs : List Char),
    splitChars sep cs ≠ [] ∧ (∀ piece ∈ splitChars sep cs, sep ∉ piece) ∧
    joinChars sep (splitChars sep cs) = cs := by
  intro cs
  induction cs with
  | nil => simp [splitChars, joinChars]
  | cons c cs ih =>
    obtain ⟨hne, hp, hj⟩ := ih
    rw [splitChars]
    split
    · rename_i hc
      subst hc
      refine ⟨by simp, ?_, ?_⟩
      · intro piece hpiece
        rcases List.mem_cons.mp hpiece with rfl | h
        · simp
        · exact hp piece h
      · cases hs : splitChars c cs with
        | nil => exact absurd hs hne
        | cons h t =>
          rw [hs] at hj
          rw [joinChars, hj]
          rfl
    · rename_i hc
      cases hs : splitChars sep cs with
      | nil => exact absurd hs hne
      | cons h t =>
        rw [hs] at hj hp
        simp only
        refine ⟨by simp, ?_, ?_⟩
        · intro piece hpiece
          rcases List.mem_cons.mp hpiece with rfl | h1
          · intro hmem
            rcases List.mem_cons.mp hmem with h2 | h2
            · exact hc h2.symm
            · exact hp h (by simp) h2
          · exact hp piece (by simp [h1])
        · cases t with
          | nil =>
            simp only [joinChars] at hj ⊢
            rw [hj]
          | cons t0 ts =>
            rw [joinChars] at hj ⊢
            rw [List.cons_append, hj]

/-- C7, as the code has it: with a non-empty override string, getRouteTables first calls
the provider's VpcID.  When that call succeeds the result is the override split on
`,` (the pieces hold no `,` and joined with `,` give the override back), with no
error, and VpcID is the only provider call made: the route tables are never
listed.  When VpcID fails, getRouteTables returns an error.  The override
`rt-1,rt-2` splits to `rt-1` and `rt-2`. -/
theorem getRouteTables_override {σ : Type} (p : Provider σ) (ids cfgVpcID : String)
    (w : World σ) (hne : ids ≠ "") :
    (∀ v, (p.VpcID w.state).1 = .ok v →
      getRouteTables p ids cfgVpcID w =
        (.ok (stringsSplit ids ','), ⟨(p.VpcID w.state).2, w.calls ++ [Call.VpcID]⟩)) ∧
    (∀ e, (p.VpcID w.state).1 = .error e →
      getRouteTables p ids cfgVpcID w =
        (.error ("get vpc id from metadata error: " ++ e),
          ⟨(p.VpcID w.state).2, w.calls ++ [Call.VpcID]⟩)) ∧
    ((∀ piece ∈ splitChars ',' ids.data, ',' ∉ piece) ∧
      joinChars ',' (splitChars ',' ids.data) = ids.data) ∧
    stringsSplit "rt-1,rt-2" ',' = ["rt-1", "rt-2"] := by
  refine ⟨?_, ?_, ⟨(splitChars_join ',' ids.data).2.1, (splitChars_join ',' ids.data).2.2⟩,
    by decide⟩
  · intro v hv
    simp [getRouteTables, callVpcID, hv, hne]
  · intro e he
    simp [getRouteTables, callVpcID, he]

/-- C7 witness: the override `rt-1,rt-2` with a provider whose VpcID succeeds. -/
theorem getRouteTables_override_witness :
    getRouteTables (stubTables []) "rt-1,rt-2" "vpc-1" ⟨0, []⟩ =
      (.ok ["rt-1", "rt-2"], ⟨1, [Call.VpcID]⟩) :=
  ((getRouteTables_override (stubTables []) "rt-1,rt-2" "vpc-1" ⟨0, []⟩ (by decide)).1
    "vpc-1" rfl).trans rfl

/-- C7 counterexample: with the override `rt-1,rt-2` and a provider all of whose calls
fail, getRouteTables makes a provider call (VpcID) and returns an error, not the
split override. -/
theorem override_with_provider_down :
    (getRouteTables stubDown "rt-1,rt-2" "vpc-1" ⟨0, []⟩).1 =
      .error "get vpc id from metadata error: metadata unreachable" ∧
    (getRouteTables stubDown "rt-1,rt-2" "vpc-1" ⟨0, []⟩).2.calls = [Call.VpcID] :=
  ⟨rfl, rfl⟩

/-- C8: with an empty override, when the provider's VpcID and ListRouteTables calls
succeed, getRouteTables succeeds exactly when one table was listed, and then it
returns that one-element list; with more than one table, and with none, it
returns an error. -/
theorem getRouteTables_discovered {σ : Type} (p : Provider σ) (cfgVpcID : String)
    (w : World σ) (v : String) (tables : List String)
    (hv : (p.VpcID w.state).1 = .ok v)
    (hl : (p.ListRouteTables (p.VpcID w.state).2 v).1 = .ok tables) :
    ((∃ r, (getRouteTables p "" cfgVpcID w).1 = .ok r) ↔ tables.length = 1) ∧
    (tables.length = 1 → (getRouteTables p "" cfgVpcID w).1 = .ok tables ∧
      ∃ t, tables = [t]) ∧
    (tables.length > 1 → ∃ e, (getRouteTables p "" cfgVpcID w).1 = .error e) ∧
    (tables.length = 0 → ∃ e, (getRouteTables p "" cfgVpcID w).1 = .error e) := by
  have hres : (getRouteTables p "" cfgVpcID w).1 =
      if tables.length > 1 then
        .error ("alicloud: multiple route tables found by vpc id[" ++ cfgVpcID ++
          "], length(tables)=" ++ toString tables.length)
      else if tables.length = 0 then
        .error ("alicloud: no route tables found by vpc id[" ++ cfgVpcID ++ "]")
      else .ok tables := by
    simp only [getRouteTables, callVpcID, hv, callListRouteTables, hl, ne_eq, not_true_eq_false,
      if_false]
    split <;> [rfl; (split <;> rfl)]
  rw [hres]
  refine ⟨?_, ?_, ?_, ?_⟩
  · constructor
    · rintro ⟨r, hr⟩
      split at hr
      · exact absurd hr (by simp)
      · split at hr
        · exact absurd hr (by simp)
        · omega
    · intro h1
      exact ⟨tables, by rw [if_neg (by omega), if_neg (by omega)]⟩
  · intro h1
    refine ⟨by rw [if_neg (by omega), if_neg (by omega)], ?_⟩
    match tables, h1 with
    | [t], _ => exact ⟨t, rfl⟩
  · intro h
    exact ⟨_, by rw [if_pos h]⟩
  · intro h
    exact ⟨_, by rw [if_neg (by omega), if_pos h]⟩

/-- C8 witness: a provider that lists the single table `vtb-1`. -/
theorem getRouteTables_discovered_witness :
    (getRouteTables (stubTables ["vtb-1"]) "" "vpc-1" ⟨0, []⟩).1 = .ok ["vtb-1"] :=
  ((getRouteTables_discovered (stubTables ["vtb-1"]) "vpc-1" ⟨0, []⟩ "vpc-1" ["vtb-1"]
    rfl rfl).2.1 rfl).1

/-! ## Results on createRouteForInstance -/

theorem backoffLoop_fail {σ : Type} (p : Provider σ) (table providerID cidr : String)
    (steps : Nat) (v : CreateVars σ) (e : String)
    (h : (p.CreateRoute v.world.state table providerID cidr).1.2 = some e)
    (hnf : stringsContains e "not found" = false) :
    backoffLoop (createCondition p table providerID cidr) (steps + 1) v =
      if steps = 0 then
        (some ErrWaitTimeout,
          CreateVars.mk (p.CreateRoute v.world.state table providerID cidr).1.1 (some e)
            (World.mk (p.CreateRoute v.world.state table providerID cidr).2
              (v.world.calls ++ [Call.CreateRoute table providerID cidr])))
      else
        backoffLoop (createCondition p table providerID cidr) steps
          (CreateVars.mk (p.CreateRoute v.world.state table providerID cidr).1.1 (some e)
            (World.mk (p.CreateRoute v.world.state table providerID cidr).2
              (v.world.calls ++ [Call.CreateRoute table providerID cidr]))) := by
  rw [backoffLoop]
  cases hc : p.CreateRoute v.world.state table providerID cidr with
  | mk res s1 =>
    obtain ⟨rt, err⟩ := res
    rw [hc] at h
    simp only at h
    subst h
    simp [createCondition, callCreateRoute, hc, hnf]

theorem backoffLoop_ok {σ : Type} (p : Provider σ) (table providerID cidr : String)
    (steps : Nat) (v : CreateVars σ) (r : Option Route)
    (h : (p.CreateRoute v.world.state table providerID cidr).1 = (r, none)) :
    backoffLoop (createCondition p table providerID cidr) (steps + 1) v =
      (none, CreateVars.mk r none
        (World.mk (p.CreateRoute v.world.state table providerID cidr).2
          (v.world.calls ++ [Call.CreateRoute table providerID cidr]))) := by
  rw [backoffLoop]
  cases hc : p.CreateRoute v.world.state table providerID cidr with
  | mk res s1 =>
    rw [hc] at h
    simp only at h
    subst h
    simp [createCondition, callCreateRoute, hc]

theorem backoffLoop_not_found {σ : Type} (p : Provider σ) (table providerID cidr : String)
    (steps : Nat) (v : CreateVars σ) (r : Option Route) (e : String)
    (h : (p.CreateRoute v.world.state table providerID cidr).1 = (r, some e))
    (hnf : stringsContains e "not found" = true) :
    backoffLoop (createCondition p table providerID cidr) (steps + 1) v =
      (none, CreateVars.mk r (some e)
        (World.mk (p.CreateRoute v.world.state table providerID cidr).2
          (v.world.calls ++ [Call.CreateRoute table providerID cidr]))) := by
  rw [backoffLoop]
  cases hc : p.CreateRoute v.world.state table providerID cidr with
  | mk res s1 =>
    rw [hc] at h
    simp only at h
    subst h
    simp [createCondition, callCreateRoute, hc, hnf]

/-- The run of `createRouteForInstance` when the first `k ≤ 2` calls fail plainly and
the next call ends the loop with the variables `route` and `innerErr` set. -/
theorem createRoute_run {σ : Type} (p : Provider σ) (table providerID cidr : String)
    (w : World σ) (k : Nat) (hk : k ≤ 2)
    (hfail : ∀ i, i < k → failsPlainly p table providerID cidr w.state i)
    (r : Option Route) (ie : Option String)
    (hend : ∀ (steps : Nat) (v : CreateVars σ),
      v.world.state = stateAfterCreates p table providerID cidr k w.state →
      backoffLoop (createCondition p table providerID cidr) (steps + 1) v =
        (none, CreateVars.mk r ie
          (World.mk (p.CreateRoute v.world.state table providerID cidr).2
            (v.world.calls ++ [Call.CreateRoute table providerID cidr])))) :
    createRouteForInstance p table providerID cidr w =
      (.ok r, ⟨stateAfterCreates p table providerID cidr (k + 1) w.state,
        w.calls ++ List.replicate (k + 1) (Call.CreateRoute table providerID cidr)⟩) := by
  unfold createRouteForInstance ExponentialBackoff
  simp only [createBackoff]
  match k, hk with
  | 0, _ =>
    rw [hend 2 (CreateVars.mk none none w) rfl]
    rfl
  | 1, _ =>
    obtain ⟨e0, h0, n0⟩ := hfail 0 (by omega)
    rw [backoffLoop_fail p table providerID cidr 2 (CreateVars.mk none none w) e0 h0 n0,
      if_neg (by omega), hend 1 _ rfl]
    simp [stateAfterCreates, List.replicate]
  | 2, _ =>
    obtain ⟨e0, h0, n0⟩ := hfail 0 (by omega)
    obtain ⟨e1, h1, n1⟩ := hfail 1 (by omega)
    rw [backoffLoop_fail p table providerID cidr 2 (CreateVars.mk none none w) e0 h0 n0,
      if_neg (by omega),
      backoffLoop_fail p table providerID cidr 1
        (CreateVars.mk (p.CreateRoute w.state table providerID cidr).1.1 (some e0)
          (World.mk (p.CreateRoute w.state table providerID cidr).2
            (w.calls ++ [Call.CreateRoute table providerID cidr]))) e1 h1 n1,
      if_neg (by omega), hend 0 _ rfl]
    simp [stateAfterCreates, List.replicate]

/-- C9: when the first k CreateRoute calls fail with messages that do not contain
`not found`: for k ≤ 2, if call k+1 succeeds with the route r, createRouteForInstance
returns r with no error after exactly k+1 provider calls; for k ≥ 3 it returns an
error (and no route), which names the providerID and the last failure, after
exactly 3 provider calls. -/
theorem createRouteForInstance_retries {σ : Type} (p : Provider σ)
    (table providerID cidr : String) (w : World σ) (k : Nat)
    (hfail : ∀ i, i < k → failsPlainly p table providerID cidr w.state i) :
    (k ≤ 2 → ∀ r, nthCreate p table providerID cidr w.state k = (r, none) →
      createRouteForInstance p table providerID cidr w =
        (.ok r, ⟨stateAfterCreates p table providerID cidr (k + 1) w.state,
          w.calls ++ List.replicate (k + 1) (Call.CreateRoute table providerID cidr)⟩)) ∧
    (3 ≤ k → ∃ e, (nthCreate p table providerID cidr w.state 2).2 = some e ∧
      createRouteForInstance p table providerID cidr w =
        (.error ("error create route for node " ++ providerID ++ ", err: " ++ e),
          ⟨stateAfterCreates p table providerID cidr 3 w.state,
            w.calls ++ List.replicate 3 (Call.CreateRoute table providerID cidr)⟩)) := by
  constructor
  · intro hk r hr
    refine createRoute_run p table providerID cidr w k hk hfail r none (fun steps v hv => ?_)
    refine backoffLoop_ok p table providerID cidr steps v r ?_
    rw [hv]
    exact hr
  · intro hk
    obtain ⟨e0, h0, n0⟩ := hfail 0 (by omega)
    obtain ⟨e1, h1, n1⟩ := hfail 1 (by omega)
    obtain ⟨e2, h2, n2⟩ := hfail 2 (by omega)
    unfold createRouteForInstance ExponentialBackoff
    simp only [createBackoff]
    rw [backoffLoop_fail p table providerID cidr 2 (CreateVars.mk none none w) e0 h0 n0,
      if_neg (by omega),
      backoffLoop_fail p table providerID cidr 1
        (CreateVars.mk (p.CreateRoute w.state table providerID cidr).1.1 (some e0)
          (World.mk (p.CreateRoute w.state table providerID cidr).2
            (w.calls ++ [Call.CreateRoute table providerID cidr]))) e1 h1 n1,
      if_neg (by omega),
      backoffLoop_fail p table providerID cidr 0
        (CreateVars.mk (p.CreateRoute (p.CreateRoute w.state table providerID cidr).2
            table providerID cidr).1.1 (some e1)
          (World.mk (p.CreateRoute (p.CreateRoute w.state table providerID cidr).2
              table providerID cidr).2
            (w.calls ++ [Call.CreateRoute table providerID cidr] ++
              [Call.CreateRoute table providerID cidr]))) e2 h2 n2, if_pos rfl]
    refine ⟨e2, h2, ?_⟩
    simp [stateAfterCreates, List.replicate, showErr]

/-- C9 witness: a provider stub that fails twice with `boom` and then succeeds:
three calls, and the route is returned. -/
theorem createRouteForInstance_retries_witness :
    (∀ i, i < 2 → failsPlainly (stubFailing 2) "vtb-1" "cn.i-1" "10.1.0.0/24" 0 i) ∧
    createRouteForInstance (stubFailing 2) "vtb-1" "cn.i-1" "10.1.0.0/24" ⟨0, []⟩ =
      (.ok (some ⟨"r", "10.1.0.0/24", "cn.i-1"⟩),
        ⟨3, List.replicate 3 (Call.CreateRoute "vtb-1" "cn.i-1" "10.1.0.0/24")⟩) :=
  ⟨fun i hi => by
      interval_cases i
      · exact ⟨"boom", rfl, by decide⟩
      · exact ⟨"boom", rfl, by decide⟩,
    ((createRouteForInstance_retries (stubFailing 2) "vtb-1" "cn.i-1" "10.1.0.0/24" ⟨0, []⟩ 2
      (fun i hi => by
        interval_cases i
        · exact ⟨"boom", rfl, by decide⟩
        · exact ⟨"boom", rfl, by decide⟩)).1 (by decide) _ rfl).trans rfl⟩

/-- C10, as the code has it: when a CreateRoute call fails with a message that contains
`not found` (after j ≤ 2 calls that failed in another way), createRouteForInstance
stops retrying at that call, after exactly j+1 provider calls (one call when the
first call fails this way), and returns no error together with the route value
that the failing call returned beside its error: no route when that value is nil. -/
theorem createRouteForInstance_not_found {σ : Type} (p : Provider σ)
    (table providerID cidr : String) (w : World σ) (j : Nat) (hj : j ≤ 2)
    (hfail : ∀ i, i < j → failsPlainly p table providerID cidr w.state i)
    (rt : Option Route) (e : String)
    (he : nthCreate p table providerID cidr w.state j = (rt, some e))
    (hnf : stringsContains e "not found" = true) :
    createRouteForInstance p table providerID cidr w =
        (.ok rt, ⟨stateAfterCreates p table providerID cidr (j + 1) w.state,
          w.calls ++ List.replicate (j + 1) (Call.CreateRoute table providerID cidr)⟩) ∧
      (rt = none → (createRouteForInstance p table providerID cidr w).1 = .ok none) := by
  have hres : createRouteForInstance p table providerID cidr w =
      (.ok rt, ⟨stateAfterCreates p table providerID cidr (j + 1) w.state,
        w.calls ++ List.replicate (j + 1) (Call.CreateRoute table providerID cidr)⟩) := by
    refine createRoute_run p table providerID cidr w j hj hfail rt (some e) (fun steps v hv => ?_)
    refine backoffLoop_not_found p table providerID cidr steps v rt e ?_ hnf
    rw [hv]
    exact he
  refine ⟨hres, ?_⟩
  intro hnone
  rw [hres, hnone]

/-- C10 witness: a provider stub whose CreateRoute always fails with
`instance not found` and returns no route: one call, no error, no route. -/
theorem createRouteForInstance_not_found_witness :
    stringsContains "instance not found" "not found" = true ∧
    createRouteForInstance stubDown "vtb-1" "cn.i-1" "10.1.0.0/24" ⟨0, []⟩ =
      (.ok none, ⟨1, [Call.CreateRoute "vtb-1" "cn.i-1" "10.1.0.0/24"]⟩) :=
  ⟨by decide,
    ((createRouteForInstance_not_found stubDown "vtb-1" "cn.i-1" "10.1.0.0/24" ⟨0, []⟩ 0
      (by decide) (fun i hi => absurd hi (by omega)) none "instance not found" rfl
      (by decide)).1).trans rfl⟩

/-- C10 counterexample: a provider stub whose CreateRoute fails with
`instance not found` and returns a route beside the error: createRouteForInstance
makes one call and returns no error, but it returns that route. -/
theorem not_found_returns_route :
    (stubGone.CreateRoute 0 "vtb-1" "cn.i-1" "10.1.0.0/24").1 =
      (some ⟨"r", "10.1.0.0/24", "cn.i-1"⟩, some "instance not found") ∧
    stringsContains "instance not found" "not found" = true ∧
    createRouteForInstance stubGone "vtb-1" "cn.i-1" "10.1.0.0/24" ⟨0, []⟩ =
      (.ok (some ⟨"r", "10.1.0.0/24", "cn.i-1"⟩),
        ⟨1, [Call.CreateRoute "vtb-1" "cn.i-1" "10.1.0.0/24"]⟩) :=
  ⟨rfl, by decide, rfl⟩

/-! ## Results on findRoute -/

theorem matchesQuery_iff (pvid cidr : String) (route : Route) :
    matchesQuery pvid cidr route = true ↔
      ((pvid ≠ "" → route.ProviderId = pvid) ∧ (cidr ≠ "" → route.DestinationCIDR = cidr)) := by
  simp only [matchesQuery, keyMatches, Bool.and_eq_true, Bool.or_eq_true, beq_iff_eq, ne_eq]
  constructor
  · rintro ⟨h1, h2⟩
    exact ⟨fun hp => h1.resolve_left hp, fun hc => h2.resolve_left hc⟩
  · rintro ⟨h1, h2⟩
    constructor
    · by_cases hp : pvid = ""
      · exact Or.inl hp
      · exact Or.inr (h1 hp)
    · by_cases hc : cidr = ""
      · exact Or.inl hc
      · exact Or.inr (h2 hc)

theorem findRouteLoop_find (pvid cidr : String) (hq : pvid ≠ "" ∨ cidr ≠ "") :
    ∀ (routes : List Route),
      findRouteLoop pvid cidr routes = routes.find? (matchesQuery pvid cidr) := by
  intro routes
  induction routes with
  | nil => rfl
  | cons route rest ih =>
    rw [findRouteLoop, List.find?_cons, ih]
    have hm := matchesQuery_iff pvid cidr route
    by_cases hp : pvid = "" <;> by_cases hc : cidr = ""
    · exact absurd hq (by simp [hp, hc])
    · have : matchesQuery pvid cidr route = true ↔ route.DestinationCIDR = cidr := by
        rw [hm]; simp [hp, hc]
      simp only [hp, hc, ne_eq, not_true_eq_false, false_and, if_false, not_false_eq_true, if_true]
      by_cases hd : route.DestinationCIDR = cidr
      · rw [if_pos hd]
        have hmt := (by simpa [hp] using this.mpr hd : matchesQuery "" cidr route = true)
        rw [hmt]
      · rw [if_neg hd]
        have hmf : matchesQuery "" cidr route = false := by
          cases h : matchesQuery "" cidr route
          · rfl
          · exact absurd ((by simpa [hp] using this : _ ↔ _).mp h) hd
        rw [hmf]
    · have : matchesQuery pvid cidr route = true ↔ route.ProviderId = pvid := by
        rw [hm]; simp [hp, hc]
      simp only [hp, hc, ne_eq, not_true_eq_false, and_false, if_false, not_false_eq_true, if_true]
      by_cases hd : route.ProviderId = pvid
      · rw [if_pos hd]
        have hmt := (by simpa [hc] using this.mpr hd : matchesQuery pvid "" route = true)
        rw [hmt]
      · rw [if_neg hd]
        have hmf : matchesQuery pvid "" route = false := by
          cases h : matchesQuery pvid "" route
          · rfl
          · exact absurd ((by simpa [hc] using this : _ ↔ _).mp h) hd
        rw [hmf]
    · have : matchesQuery pvid cidr route = true ↔
          (route.DestinationCIDR = cidr ∧ route.ProviderId = pvid) := by
        rw [hm]; simp [hp, hc]; tauto
      simp only [hp, hc, ne_eq, not_false_eq_true, and_self, if_true]
      by_cases hd : route.DestinationCIDR = cidr ∧ route.ProviderId = pvid
      · rw [if_pos hd, this.mpr hd]
      · rw [if_neg hd]
        have hmf : matchesQuery pvid cidr route = false := by
          cases h : matchesQuery pvid cidr route
          · rfl
          · exact absurd (this.mp h) hd
        rw [hmf]

/-- C12: for a non-empty cached route list and a query with at least one of providerID
and cidr given, findRoute makes no provider call and returns, with no error, the
first route in cache order whose fields equal every given key (both ProviderId and
DestinationCIDR when both are given, the given one otherwise), or nil with no error
when no cached route matches. -/
theorem findRoute_cached {σ : Type} (p : Provider σ) (table pvid cidr : String)
    (cachedRoutes : List Route) (w : World σ) (hne : cachedRoutes ≠ [])
    (hq : pvid ≠ "" ∨ cidr ≠ "") :
    findRoute p table pvid cidr cachedRoutes w =
        (.ok (cachedRoutes.find? (matchesQuery pvid cidr)), w) ∧
      (∀ route, matchesQuery pvid cidr route = true ↔
        ((pvid ≠ "" → route.ProviderId = pvid) ∧ (cidr ≠ "" → route.DestinationCIDR = cidr))) ∧
      ((∀ route ∈ cachedRoutes, matchesQuery pvid cidr route = false) →
        findRoute p table pvid cidr cachedRoutes w = (.ok none, w)) := by
  have hres : findRoute p table pvid cidr cachedRoutes w =
      (.ok (cachedRoutes.find? (matchesQuery pvid cidr)), w) := by
    have hlen : cachedRoutes.length ≠ 0 := fun h => hne (List.length_eq_zero.mp h)
    unfold findRoute
    rw [if_neg (by tauto), if_pos hlen, findRouteLoop_find pvid cidr hq]
  refine ⟨hres, matchesQuery_iff pvid cidr, ?_⟩
  intro hnone
  rw [hres]
  have : cachedRoutes.find? (matchesQuery pvid cidr) = none := by
    rw [List.find?_eq_none]
    intro route hr
    simp [hnone route hr]
  rw [this]

/-- C12 witness: the cache of the two sample routes, asked for the provider id of
node A, then for a destination that is not cached. -/
theorem findRoute_cached_witness :
    findRoute stubDown "vtb-1" "cn.i-a" "" sampleRoutes ⟨0, []⟩ =
      (.ok (some ⟨"r1", "10.1.0.0/24", "cn.i-a"⟩), ⟨0, []⟩) ∧
    findRoute stubDown "vtb-1" "" "10.7.0.0/24" sampleRoutes ⟨0, []⟩ = (.ok none, ⟨0, []⟩) :=
  ⟨(findRoute_cached stubDown "vtb-1" "cn.i-a" "" sampleRoutes ⟨0, []⟩ (by decide)
      (Or.inl (by decide))).1.trans rfl,
    (findRoute_cached stubDown "vtb-1" "" "10.7.0.0/24" sampleRoutes ⟨0, []⟩ (by decide)
      (Or.inr (by decide))).1.trans rfl⟩

/-! ## Results on syncTableRoutes -/

theorem creations_append {Node : Type} : ∀ (a b : List (Step Node)),
    creations (a ++ b) = creations a ++ creations b := by
  intro a
  induction a with
  | nil => intro b; rfl
  | cons s rest ih =>
    intro b
    cases s <;> simp [creations, ih]

theorem providerCalls_append {Node : Type} : ∀ (a b : List (Step Node)),
    providerCalls (a ++ b) = providerCalls a ++ providerCalls b := by
  intro a
  induction a with
  | nil => intro b; rfl
  | cons s rest ih =>
    intro b
    cases s <;> simp [providerCalls, ih]

theorem creations_provider {Node : Type} : ∀ (cs : List Call),
    creations (cs.map (Step.provider : Call → Step Node)) = [] := by
  intro cs
  induction cs with
  | nil => rfl
  | cons c rest ih => simp [creations, ih]

theorem providerCalls_provider {Node : Type} : ∀ (cs : List Call),
    providerCalls (cs.map (Step.provider : Call → Step Node)) = cs := by
  intro cs
  induction cs with
  | nil => rfl
  | cons c rest ih => simp [providerCalls, ih]

/-- The first loop issues one `DeleteRoute` for each listed route that is in scope
and conflicts with the nodes, in list order, and nothing else. -/
theorem pruneRoutes_steps {σ Node : Type} (r : ReconcileRoute σ Node) (table : String)
    (nodes : List Node) (clusterCIDR : Option IPNet) :
    ∀ (routes : List Route) (e : Engine σ Node),
      (pruneRoutes r table nodes clusterCIDR routes e).steps =
        e.steps ++ ((routes.filter (toDelete r nodes clusterCIDR)).map
          (fun route => Step.provider (deleteCall table route))) := by
  intro routes
  induction routes with
  | nil => intro e; simp [pruneRoutes]
  | cons route rest ih =>
    intro e
    rw [pruneRoutes]
    cases hc : containsRoute clusterCIDR route.DestinationCIDR with
    | error err =>
      have hd : toDelete r nodes clusterCIDR route = false := by simp [toDelete, inScope, hc]
      simp only [List.filter_cons, hd]
      exact ih e
    | ok res =>
      obtain ⟨contains, strict⟩ := res
      cases contains with
      | false =>
        have hd : toDelete r nodes clusterCIDR route = false := by simp [toDelete, inScope, hc]
        simp only [List.filter_cons, hd, Bool.not_false, if_true]
        exact ih e
      | true =>
        cases hn : conflictWithNodes r.getIPv4RouteForNode route.DestinationCIDR nodes with
        | false =>
          have hd : toDelete r nodes clusterCIDR route = false := by
            simp [toDelete, inScope, hc, hn]
          simp only [List.filter_cons, hd, Bool.not_true, Bool.false_eq_true, if_false]
          exact ih e
        | true =>
          have hd : toDelete r nodes clusterCIDR route = true := by
            simp [toDelete, inScope, hc, hn]
          simp only [Bool.not_true, Bool.false_eq_true, if_false, if_true, List.filter_cons, hd]
          cases hdel : (liftWorld (deleteRouteForInstance r.cloud table route.ProviderId
              route.DestinationCIDR) e).1 with
          | none =>
            have : liftWorld (deleteRouteForInstance r.cloud table route.ProviderId
                route.DestinationCIDR) e = (none, (liftWorld (deleteRouteForInstance r.cloud table
                  route.ProviderId route.DestinationCIDR) e).2) := by
              rw [← hdel]
            rw [this]
            simp only [ih]
            simp [liftWorld, deleteRouteForInstance, callDeleteRoute, deleteCall]
          | some err =>
            have : liftWorld (deleteRouteForInstance r.cloud table route.ProviderId
                route.DestinationCIDR) e = (some err, (liftWorld (deleteRouteForInstance r.cloud
                  table route.ProviderId route.DestinationCIDR) e).2) := by
              rw [← hdel]
            rw [this]
            simp only [ih]
            simp [liftWorld, deleteRouteForInstance, callDeleteRoute, deleteCall]

/-- The second loop appends, for each eligible node in list order, one invocation
of `addRouteForNode` (followed by an event or a condition update), nothing for
the other nodes, and no provider call of its own. -/
theorem createRoutes_steps {σ Node : Type} (r : ReconcileRoute σ Node) (table : String)
    (routes : List Route) :
    ∀ (nodes : List Node) (e : Engine σ Node),
      ∃ rest, (createRoutes r table routes nodes e).steps = e.steps ++ rest ∧
        providerCalls rest = [] ∧
        creations rest = (nodes.filter (eligible r)).map
          (fun node => (table, podCIDRText r node, r.ProviderID node, node)) := by
  intro nodes
  induction nodes with
  | nil => intro e; exact ⟨[], by simp [createRoutes], rfl, rfl⟩
  | cons node rest ih =>
    intro e
    rw [createRoutes]
    by_cases h1 : (!r.configRoutes || r.HasExcludeLabel node) = true
    · have hel : eligible r node = false := by
        simp only [Bool.or_eq_true, Bool.not_eq_true'] at h1
        rcases h1 with h | h <;> simp [eligible, h]
      rw [if_pos h1]
      simp only [List.filter_cons, hel]
      exact ih e
    · rw [if_neg h1]
      simp only [Bool.or_eq_true, Bool.not_eq_true', not_or, Bool.not_eq_false,
        Bool.not_eq_true] at h1
      by_cases h2 : ((r.FindCondition node NodeReady).2 &&
          (r.FindCondition node NodeReady).1.Status == ConditionUnknown) = true
      · have hel : eligible r node = false := by simp [eligible, h2]
        rw [if_pos h2]
        simp only [List.filter_cons, hel]
        exact ih e
      · rw [if_neg h2]
        by_cases h3 : r.ProviderID node = ""
        · have hel : eligible r node = false := by simp [eligible, h3]
          rw [if_pos h3]
          simp only [List.filter_cons, hel]
          exact ih e
        · rw [if_neg h3]
          cases hg : r.getIPv4RouteForNode node with
          | error err =>
            have hel : eligible r node = false := by simp [eligible, hg]
            simp only [List.filter_cons, hel]
            exact ih e
          | ok res =>
            obtain ⟨ipnet, ipv4RouteCidr⟩ := res
            simp only
            by_cases h4 : ipv4RouteCidr = ""
            · have hel : eligible r node = false := by simp [eligible, hg, h4]
              rw [if_pos h4]
              simp only [List.filter_cons, hel]
              exact ih e
            · rw [if_neg h4]
              have hel : eligible r node = true := by
                simp only [Bool.not_eq_true] at h2
                simp [eligible, hg, h4, h3, h1.1, h1.2, h2]
              have hpod : podCIDRText r node = ipv4RouteCidr := by simp [podCIDRText, hg]
              simp only [List.filter_cons, hel, if_true, List.map_cons, hpod]
              cases hadd : r.addRouteForNode e.state table ipv4RouteCidr (r.ProviderID node) node
                  routes with
              | mk err s1 =>
                cases err with
                | some msg =>
                  simp only
                  obtain ⟨more, hm, hp, hc⟩ := ih
                    ⟨s1, e.steps ++ [Step.addRouteForNode table ipv4RouteCidr (r.ProviderID node)
                        node,
                      Step.recordEvent node ("Create Route Failed for " ++ table ++ " reason: " ++
                        msg)]⟩
                  refine ⟨[Step.addRouteForNode table ipv4RouteCidr (r.ProviderID node) node,
                    Step.recordEvent node ("Create Route Failed for " ++ table ++ " reason: " ++
                      msg)] ++ more, ?_, ?_, ?_⟩
                  · rw [hm]; simp
                  · rw [providerCalls_append, hp]; rfl
                  · rw [creations_append, hc]; rfl
                | none =>
                  simp only
                  split
                  · obtain ⟨more, hm, hp, hc⟩ := ih
                      ⟨(r.updateNetworkingCondition s1 node true).2,
                        e.steps ++ [Step.addRouteForNode table ipv4RouteCidr (r.ProviderID node)
                          node, Step.updateNetworkingCondition node]⟩
                    refine ⟨[Step.addRouteForNode table ipv4RouteCidr (r.ProviderID node) node,
                      Step.updateNetworkingCondition node] ++ more, ?_, ?_, ?_⟩
                    · rw [hm]; simp
                    · rw [providerCalls_append, hp]; rfl
                    · rw [creations_append, hc]; rfl
                  · obtain ⟨more, hm, hp, hc⟩ := ih
                      ⟨s1, e.steps ++ [Step.addRouteForNode table ipv4RouteCidr (r.ProviderID node)
                        node]⟩
                    refine ⟨[Step.addRouteForNode table ipv4RouteCidr (r.ProviderID node) node]
                      ++ more, ?_, ?_, ?_⟩
                    · rw [hm]; simp
                    · rw [providerCalls_append, hp]; rfl
                    · rw [creations_append, hc]; rfl

theorem syncTableRoutes_ok {σ Node : Type} (r : ReconcileRoute σ Node) (table : String)
    (nodes : List Node) (e : Engine σ Node) (routes : List Route) (scope : Option IPNet)
    (hlist : (r.cloud.ListRoute e.state table).1 = .ok routes)
    (hscope : clusterScope r.ClusterCIDR = .ok scope) :
    syncTableRoutes r table nodes e =
      (none, createRoutes r table routes nodes (pruneRoutes r table nodes scope routes
        ⟨(r.cloud.ListRoute e.state table).2, e.steps ++ [Step.provider (Call.ListRoute table)]⟩)) := by
  simp [syncTableRoutes, liftWorld, callListRoute, hlist, hscope]

theorem syncTableRoutes_aborts {σ Node : Type} (r : ReconcileRoute σ Node) (table : String)
    (nodes : List Node) (e : Engine σ Node)
    (h : (∃ err, (r.cloud.ListRoute e.state table).1 = .error err) ∨
      (∃ err, clusterScope r.ClusterCIDR = .error err)) :
    (syncTableRoutes r table nodes e).1 ≠ none ∧
    (syncTableRoutes r table nodes e).2.steps =
      e.steps ++ [Step.provider (Call.ListRoute table)] := by
  cases hl : (r.cloud.ListRoute e.state table).1 with
  | error err => simp [syncTableRoutes, liftWorld, callListRoute, hl]
  | ok routes =>
    rcases h with ⟨err, he⟩ | ⟨err, he⟩
    · rw [hl] at he
      exact absurd he (by simp)
    · simp [syncTableRoutes, liftWorld, callListRoute, hl, he]

theorem eligible_iff {σ Node : Type} (r : ReconcileRoute σ Node) (node : Node) :
    eligible r node = true ↔
      (r.configRoutes = true ∧ r.HasExcludeLabel node = false ∧
        ¬((r.FindCondition node NodeReady).2 = true ∧
          (r.FindCondition node NodeReady).1.Status = ConditionUnknown) ∧
        r.ProviderID node ≠ "" ∧
        ∃ ipnet ipv4RouteCidr, r.getIPv4RouteForNode node = .ok (ipnet, ipv4RouteCidr) ∧
          ipv4RouteCidr ≠ "") := by
  unfold eligible
  cases hg : r.getIPv4RouteForNode node with
  | error err => simp
  | ok res =>
    obtain ⟨ipnet, s⟩ := res
    simp only [Except.ok.injEq, Prod.mk.injEq]
    cases h1 : r.configRoutes <;> cases h2 : r.HasExcludeLabel node <;>
      cases h3 : (r.FindCondition node NodeReady).2 <;>
      by_cases h4 : (r.FindCondition node NodeReady).1.Status = ConditionUnknown <;>
      by_cases h5 : r.ProviderID node = "" <;> by_cases h6 : s = "" <;>
      first
        | (simp [h4, h5, h6]; done)
        | (simp [h4, h5, h6]; exact ⟨ipnet, s, ⟨rfl, rfl⟩, h6⟩)

/-- C11, as the code has it: in a pass of syncTableRoutes whose route listing succeeds
and whose cluster CIDR setting is empty or parses, addRouteForNode is invoked
exactly for the eligible nodes (route management enabled, no exclusion label,
Ready not Unknown, providerID not empty, pod CIDR obtained without error and not
empty), once each and in list order, whatever the provider and the earlier
invocations returned; a node failing any of the conditions is not passed to it.
When the listing fails or the cluster CIDR does not parse, the pass returns an
error and passes no node to route creation. -/
theorem syncTableRoutes_creations {σ Node : Type} (r : ReconcileRoute σ Node) (table : String)
    (nodes : List Node) (e : Engine σ Node) :
    (∀ routes scope, (r.cloud.ListRoute e.state table).1 = .ok routes →
      clusterScope r.ClusterCIDR = .ok scope →
      (syncTableRoutes r table nodes e).1 = none ∧
      creations (syncTableRoutes r table nodes e).2.steps =
        creations e.steps ++ (nodes.filter (eligible r)).map
          (fun node => (table, podCIDRText r node, r.ProviderID node, node))) ∧
    (∀ node, eligible r node = true ↔
      (r.configRoutes = true ∧ r.HasExcludeLabel node = false ∧
        ¬((r.FindCondition node NodeReady).2 = true ∧
          (r.FindCondition node NodeReady).1.Status = ConditionUnknown) ∧
        r.ProviderID node ≠ "" ∧
        ∃ ipnet ipv4RouteCidr, r.getIPv4RouteForNode node = .ok (ipnet, ipv4RouteCidr) ∧
          ipv4RouteCidr ≠ "")) ∧
    (((∃ err, (r.cloud.ListRoute e.state table).1 = .error err) ∨
        (∃ err, clusterScope r.ClusterCIDR = .error err)) →
      (syncTableRoutes r table nodes e).1 ≠ none ∧
      creations (syncTableRoutes r table nodes e).2.steps = creations e.steps) := by
  refine ⟨?_, eligible_iff r, ?_⟩
  · intro routes scope hlist hscope
    rw [syncTableRoutes_ok r table nodes e routes scope hlist hscope]
    refine ⟨rfl, ?_⟩
    obtain ⟨rest, hsteps, -, hcre⟩ := createRoutes_steps r table routes nodes
      (pruneRoutes r table nodes scope routes
        ⟨(r.cloud.ListRoute e.state table).2, e.steps ++ [Step.provider (Call.ListRoute table)]⟩)
    simp only
    rw [hsteps, pruneRoutes_steps, creations_append, creations_append, creations_append, hcre]
    have h1 : creations ([Step.provider (Call.ListRoute table)] : List (Step Node)) = [] := rfl
    have h2 : creations (List.map (fun route => (Step.provider (deleteCall table route) : Step Node))
        (List.filter (toDelete r nodes scope) routes)) = [] := by
      have := @creations_provider Node
        ((List.filter (toDelete r nodes scope) routes).map (deleteCall table))
      rw [List.map_map] at this
      exact this
    rw [h1, h2]
    simp
  · intro h
    obtain ⟨hne, hsteps⟩ := syncTableRoutes_aborts r table nodes e h
    refine ⟨hne, ?_⟩
    rw [hsteps, creations_append]
    simp [creations]

/-- C11 witness: scope 10.0.0.0/8, the two sample routes listed, node A eligible and
node B without provider id: addRouteForNode is invoked once, for node A. -/
theorem syncTableRoutes_creations_witness :
    creations (syncTableRoutes (sampleReconcile (stubRoutes sampleRoutes) "10.0.0.0/8") "vtb-1"
      [nodeA, nodeB] ⟨0, []⟩).2.steps = [("vtb-1", "10.1.0.0/24", "cn.i-a", nodeA)] :=
  (((syncTableRoutes_creations (sampleReconcile (stubRoutes sampleRoutes) "10.0.0.0/8") "vtb-1"
    [nodeA, nodeB] ⟨0, []⟩).1 sampleRoutes (some net10) rfl rfl).2).trans (by decide)

/-- C11 counterexample: node A meets every condition, but the provider fails to list
the routes: the pass returns an error and addRouteForNode is not invoked for
node A. -/
theorem eligible_node_not_created :
    eligible (sampleReconcile stubDown "") nodeA = true ∧
    (syncTableRoutes (sampleReconcile stubDown "") "vtb-1" [nodeA] ⟨0, []⟩).1 =
      some "error listing routes: down" ∧
    creations (syncTableRoutes (sampleReconcile stubDown "") "vtb-1" [nodeA] ⟨0, []⟩).2.steps
      = [] :=
  ⟨by decide, rfl, rfl⟩

end RouteManager
